import Mathlib

/-!
# Verification of the Pragyan AI resume-portal against its specification

Shallow embedding of the Python sources `main_app.py`, `candidate_dashboard.py`
and `hiring_dashboard.py`.  Python strings are modelled as `List Char` (with
`String` at the interfaces), Python dicts with a fixed key set as structures
whose optional keys are `Option` fields, the third-party LLM replies as input
strings, and every fallible step as `Option`/`Except`.  All character classes
(`isdigit`, `\s`, `lower`) are modelled for the ASCII range that every literal
of the program lives in.
-/

namespace ResumePortal

/-! ## Character utilities (ASCII models of Python `str` predicates) -/

/-- Model of the regex class `\d` / Python `str.isdigit` on one ASCII char. -/
def isDigitChar (c : Char) : Bool := 48 ≤ c.toNat && c.toNat ≤ 57

/-- Model of the regex class `\s` (Python: space, `\t`, `\n`, `\r`, `\x0b`, `\x0c`). -/
def isSpaceChar (c : Char) : Bool :=
  c.toNat = 32 || c.toNat = 9 || c.toNat = 10 || c.toNat = 13 ||
  c.toNat = 11 || c.toNat = 12

/-- Model of Python `str.lower` on one char (ASCII range). -/
def lowerChar (c : Char) : Char :=
  if 65 ≤ c.toNat && c.toNat ≤ 90 then Char.ofNat (c.toNat + 32) else c

/-- Numeric value of one decimal digit char. -/
def digitVal (c : Char) : Nat := c.toNat - 48

/-- Value of a decimal digit string, as Python `int` computes it. -/
def digitsVal (ds : List Char) : Nat := ds.foldl (fun a c => 10 * a + digitVal c) 0

/-- Worker for `natDigits`; the fuel argument keeps the recursion structural
(`n < fuel` always holds at the call sites). -/
def natDigitsAux : Nat → Nat → List Char
  | 0, _ => []
  | fuel + 1, n =>
    if n < 10 then [Char.ofNat (48 + n)]
    else natDigitsAux fuel (n / 10) ++ [Char.ofNat (48 + n % 10)]

/-- Decimal digits of a natural number, as Python prints it (no leading zeros). -/
def natDigits (n : Nat) : List Char := natDigitsAux (n + 1) n

theorem toNat_ofNat_valid (n : Nat) (h : n.isValidChar) : (Char.ofNat n).toNat = n := by
  simp [Char.ofNat, h, Char.ofNatAux, Char.toNat, UInt32.toNat, BitVec.toNat_ofNatLt]

theorem toNat_ofNat_digit (d : Nat) (hd : d < 10) : (Char.ofNat (48 + d)).toNat = 48 + d := by
  interval_cases d <;> decide

theorem isDigitChar_ofNat_digit (d : Nat) (hd : d < 10) :
    isDigitChar (Char.ofNat (48 + d)) = true := by
  interval_cases d <;> decide

theorem digitVal_ofNat_digit (d : Nat) (hd : d < 10) :
    digitVal (Char.ofNat (48 + d)) = d := by
  interval_cases d <;> decide

theorem natDigitsAux_ne_nil : ∀ (fuel n : Nat), n < fuel → natDigitsAux fuel n ≠ [] := by
  intro fuel
  induction fuel with
  | zero => omega
  | succ f ih =>
    intro n _
    rw [natDigitsAux]
    split <;> simp

theorem natDigits_ne_nil (n : Nat) : natDigits n ≠ [] :=
  natDigitsAux_ne_nil (n + 1) n (by omega)

theorem natDigitsAux_all_digit : ∀ (fuel n : Nat), n < fuel →
    ∀ c ∈ natDigitsAux fuel n, isDigitChar c = true := by
  intro fuel
  induction fuel with
  | zero => omega
  | succ f ih =>
    intro n hn
    rw [natDigitsAux]
    split
    next h =>
      intro c hc
      simp only [List.mem_singleton] at hc
      subst hc
      exact isDigitChar_ofNat_digit n h
    next h =>
      intro c hc
      rcases List.mem_append.mp hc with h1 | h2
      · exact ih (n / 10) (by omega) c h1
      · simp only [List.mem_singleton] at h2
        subst h2
        exact isDigitChar_ofNat_digit (n % 10) (Nat.mod_lt _ (by omega))

theorem natDigits_all_digit (n : Nat) : ∀ c ∈ natDigits n, isDigitChar c = true :=
  natDigitsAux_all_digit (n + 1) n (by omega)

theorem digitsVal_append_singleton (ds : List Char) (c : Char) :
    digitsVal (ds ++ [c]) = 10 * digitsVal ds + digitVal c := by
  simp [digitsVal, List.foldl_append]

theorem digitsVal_natDigitsAux : ∀ (fuel n : Nat), n < fuel →
    digitsVal (natDigitsAux fuel n) = n := by
  intro fuel
  induction fuel with
  | zero => omega
  | succ f ih =>
    intro n hn
    rw [natDigitsAux]
    split
    next h => simp [digitsVal, digitVal_ofNat_digit n h]
    next h =>
      rw [digitsVal_append_singleton, ih (n / 10) (by omega),
        digitVal_ofNat_digit (n % 10) (Nat.mod_lt _ (by omega))]
      omega

theorem digitsVal_natDigits (n : Nat) : digitsVal (natDigits n) = n :=
  digitsVal_natDigitsAux (n + 1) n (by omega)

theorem lowerChar_of_digit (c : Char) (h : isDigitChar c = true) : lowerChar c = c := by
  simp only [isDigitChar, Bool.and_eq_true, decide_eq_true_eq] at h
  simp only [lowerChar, Bool.and_eq_true, decide_eq_true_eq]
  split
  next hc => omega
  next hc => rfl

theorem isDigitChar_lowerChar (c : Char) (h : isDigitChar c = false) :
    isDigitChar (lowerChar c) = false := by
  simp only [isDigitChar, Bool.and_eq_true, decide_eq_true_eq] at h ⊢
  simp only [lowerChar]
  split
  next hc =>
    simp only [Bool.and_eq_true, decide_eq_true_eq] at hc
    have hval : (Char.ofNat (c.toNat + 32)).toNat = c.toNat + 32 :=
      toNat_ofNat_valid _ (Or.inl (by omega))
    rw [hval]
    simp only [Bool.and_eq_false_iff, decide_eq_false_iff_not]
    omega
  next hc => simpa [isDigitChar] using h

/-! ## The fit-score extractor of the batch JD match

`candidate_dashboard.py` line 1002:
`re.search(r'Overall Fit Score:\s*[^\d]*(\d+)\s*/10', fit_output, re.IGNORECASE)`.
`re.IGNORECASE` is modelled by lowering the haystack and matching the
lowercase literal; the greedy `\s*`/`[^\d]*`/`(\d+)` runs are deterministic
because none of those classes can consume a character the next part needs. -/

/-- The lowercased literal part of the score pattern. -/
def scoreLit : List Char :=
  ['o', 'v', 'e', 'r', 'a', 'l', 'l', ' ', 'f', 'i', 't', ' ',
   's', 'c', 'o', 'r', 'e', ':']

/-- One attempt at the pattern tail `\s*[^\d]*(\d+)\s*/10`, started right
after the literal; returns the captured digit group. -/
def tailMatch (l : List Char) : Option (List Char) :=
  let r3 := (l.dropWhile isSpaceChar).dropWhile (fun c => !isDigitChar c)
  let ds := r3.takeWhile isDigitChar
  if ds = [] then none
  else if ['/', '1', '0'].isPrefixOf ((r3.drop ds.length).dropWhile isSpaceChar)
  then some ds else none

/-- One attempt of the full pattern at the head of (lowercased) `l`. -/
def matchScoreAt (l : List Char) : Option (List Char) :=
  if scoreLit.isPrefixOf l then tailMatch (l.drop scoreLit.length) else none

/-- `re.search` semantics: try every start position, leftmost success wins. -/
def searchScoreGroup : List Char → Option (List Char)
  | [] => none
  | c :: cs =>
    match matchScoreAt (c :: cs) with
    | some ds => some ds
    | none => searchScoreGroup cs

/-- `group(1)` of the score search on an LLM reply. -/
def extractOverallGroup (reply : String) : Option (List Char) :=
  searchScoreGroup (reply.data.map lowerChar)

/-- The extracted fit score, as the integer Python later reads from the group. -/
def extractOverallScore (reply : String) : Option Nat :=
  (extractOverallGroup reply).map digitsVal

/-- Line 1022: `overall_score = overall_score_match.group(1) if overall_score_match else 'N/A'`. -/
def overallScoreStr (reply : String) : String :=
  match extractOverallGroup reply with
  | some ds => String.mk ds
  | none => "N/A"

/-- Python `str.isdigit` (ASCII model): nonempty and all decimal digits. -/
def pyStrIsDigit (s : String) : Bool := !s.data.isEmpty && s.data.all isDigitChar

/-- Line 1027: `int(overall_score) if overall_score.isdigit() else -1`. -/
def pyNumeric (s : String) : Int :=
  if pyStrIsDigit s then (digitsVal s.data : Int) else -1

/-! ### Lemmas about the score search -/

theorem isSpaceChar_of_digit (c : Char) (h : isDigitChar c = true) :
    isSpaceChar c = false := by
  simp only [isDigitChar, Bool.and_eq_true, decide_eq_true_eq] at h
  simp only [isSpaceChar]
  simp only [Bool.or_eq_false_iff, decide_eq_false_iff_not]
  omega

theorem dropWhile_not_digit (w : List Char) (hw : ∀ c ∈ w, isDigitChar c = false)
    (d : Char) (hd : isDigitChar d = true) (t : List Char) :
    (w ++ d :: t).dropWhile (fun c => !isDigitChar c) = d :: t := by
  induction w with
  | nil => simp [List.dropWhile_cons, hd]
  | cons c w ih =>
    have hc := hw c (by simp)
    simp only [List.cons_append, List.dropWhile_cons, hc]
    simpa using ih (fun x hx => hw x (by simp [hx]))

theorem dropWhile_space_shape (w : List Char) (hw : ∀ c ∈ w, isDigitChar c = false)
    (d : Char) (hd : isDigitChar d = true) (t : List Char) :
    ∃ w₂, (w ++ d :: t).dropWhile isSpaceChar = w₂ ++ d :: t ∧
      ∀ c ∈ w₂, isDigitChar c = false := by
  induction w with
  | nil =>
    refine ⟨[], ?_, by simp⟩
    simp [List.dropWhile_cons, isSpaceChar_of_digit d hd]
  | cons c w ih =>
    by_cases hc : isSpaceChar c = true
    · obtain ⟨w₂, heq, hnd⟩ := ih (fun x hx => hw x (by simp [hx]))
      exact ⟨w₂, by simp [List.dropWhile_cons, hc, heq], hnd⟩
    · refine ⟨c :: w, ?_, hw⟩
      simp only [Bool.not_eq_true] at hc
      simp [List.dropWhile_cons, hc]

theorem takeWhile_digits (ds : List Char) (hds : ∀ c ∈ ds, isDigitChar c = true)
    (t : List Char) :
    (ds ++ '/' :: t).takeWhile isDigitChar = ds := by
  induction ds with
  | nil => simp [List.takeWhile_cons]; decide
  | cons c ds ih =>
    have hc := hds c (by simp)
    simp only [List.cons_append, List.takeWhile_cons, hc]
    simpa using ih (fun x hx => hds x (by simp [hx]))

theorem tailMatch_eval (w ds rest : List Char) (hw : ∀ c ∈ w, isDigitChar c = false)
    (hne : ds ≠ []) (hds : ∀ c ∈ ds, isDigitChar c = true) :
    tailMatch (w ++ ds ++ '/' :: '1' :: '0' :: rest) = some ds := by
  obtain ⟨d, ds', rfl⟩ : ∃ d ds', ds = d :: ds' := by
    cases ds with
    | nil => exact absurd rfl hne
    | cons d ds' => exact ⟨d, ds', rfl⟩
  have hd := hds d (by simp)
  obtain ⟨w₂, hw2eq, hw2nd⟩ := dropWhile_space_shape w hw d hd
    (ds' ++ '/' :: '1' :: '0' :: rest)
  have hr3 : ((w ++ (d :: ds') ++ '/' :: '1' :: '0' :: rest).dropWhile
      isSpaceChar).dropWhile (fun c => !isDigitChar c) =
      (d :: ds') ++ '/' :: '1' :: '0' :: rest := by
    have : w ++ (d :: ds') ++ '/' :: '1' :: '0' :: rest =
        w ++ d :: (ds' ++ '/' :: '1' :: '0' :: rest) := by simp
    rw [this, hw2eq]
    have := dropWhile_not_digit w₂ hw2nd d hd (ds' ++ '/' :: '1' :: '0' :: rest)
    simpa using this
  have htake : (((d :: ds') ++ '/' :: '1' :: '0' :: rest).takeWhile isDigitChar) =
      d :: ds' := takeWhile_digits (d :: ds') hds ('1' :: '0' :: rest)
  have hdrop : ((d :: ds') ++ '/' :: '1' :: '0' :: rest).drop (d :: ds').length =
      '/' :: '1' :: '0' :: rest := List.drop_left _ _
  simp only [tailMatch, hr3, htake, hdrop]
  have : ('/' :: '1' :: '0' :: rest).dropWhile isSpaceChar =
      '/' :: '1' :: '0' :: rest := by
    simp [List.dropWhile_cons, show isSpaceChar '/' = false from by decide]
  rw [this]
  simp [List.isPrefixOf]

theorem scoreLit_not_digit : ∀ c ∈ scoreLit, isDigitChar c = false := by decide

theorem prefix_split : ∀ (p u : List Char), (∀ c ∈ p, isDigitChar c = false) →
    (∀ c ∈ u, isDigitChar c = false) → ∀ (d : Char) (t : List Char),
    isDigitChar d = true → p.isPrefixOf (u ++ d :: t) = true →
    ∃ u₂, u = p ++ u₂ ∧ ∀ c ∈ u₂, isDigitChar c = false := by
  intro p
  induction p with
  | nil => exact fun u _ hu d t _ _ => ⟨u, rfl, hu⟩
  | cons a p ih =>
    intro u hp hu d t hd hpre
    cases u with
    | nil =>
      simp only [List.nil_append, List.isPrefixOf, Bool.and_eq_true, beq_iff_eq] at hpre
      have ha := hp a (by simp)
      rw [hpre.1] at ha
      rw [ha] at hd
      exact absurd hd (by simp)
    | cons b u' =>
      simp only [List.cons_append, List.isPrefixOf, Bool.and_eq_true, beq_iff_eq] at hpre
      obtain ⟨u₂, heq, hnd⟩ := ih u' (fun c hc => hp c (by simp [hc]))
        (fun c hc => hu c (by simp [hc])) d t hd hpre.2
      exact ⟨u₂, by simp [hpre.1, heq], hnd⟩

theorem matchScoreAt_parts (u ds rest : List Char)
    (hu : ∀ c ∈ u, isDigitChar c = false) (hne : ds ≠ [])
    (hds : ∀ c ∈ ds, isDigitChar c = true) (g : List Char)
    (h : matchScoreAt (u ++ ds ++ '/' :: '1' :: '0' :: rest) = some g) : g = ds := by
  obtain ⟨d, ds', rfl⟩ : ∃ d ds', ds = d :: ds' := by
    cases ds with
    | nil => exact absurd rfl hne
    | cons d ds' => exact ⟨d, ds', rfl⟩
  unfold matchScoreAt at h
  split at h
  next hpre =>
    have hd := hds d (by simp)
    have hshape : u ++ (d :: ds') ++ '/' :: '1' :: '0' :: rest =
        u ++ d :: (ds' ++ '/' :: '1' :: '0' :: rest) := by simp
    rw [hshape] at hpre
    obtain ⟨u₂, rfl, hu2⟩ := prefix_split scoreLit u scoreLit_not_digit hu d
      (ds' ++ '/' :: '1' :: '0' :: rest) hd hpre
    have hdrop : ((scoreLit ++ u₂) ++ (d :: ds') ++ '/' :: '1' :: '0' :: rest).drop
        scoreLit.length = u₂ ++ (d :: ds') ++ '/' :: '1' :: '0' :: rest := by
      have : (scoreLit ++ u₂) ++ (d :: ds') ++ '/' :: '1' :: '0' :: rest =
          scoreLit ++ (u₂ ++ (d :: ds') ++ '/' :: '1' :: '0' :: rest) := by simp
      rw [this, List.drop_left]
    rw [hdrop, tailMatch_eval u₂ (d :: ds') rest hu2 (by simp) hds] at h
    exact (Option.some_inj.mp h).symm
  next => exact absurd h (by simp)

theorem searchScoreGroup_of_matchAt (l : List Char) (ds : List Char)
    (h : matchScoreAt l = some ds) : searchScoreGroup l = some ds := by
  cases l with
  | nil => simp [matchScoreAt, scoreLit, List.isPrefixOf] at h
  | cons c cs => simp [searchScoreGroup, h]

theorem searchScoreGroup_cons_none (c : Char) (cs : List Char)
    (h : matchScoreAt (c :: cs) = none) :
    searchScoreGroup (c :: cs) = searchScoreGroup cs := by
  simp [searchScoreGroup, h]

theorem matchScoreAt_here (mid ds rest : List Char)
    (hmid : ∀ c ∈ mid, isDigitChar c = false) (hne : ds ≠ [])
    (hds : ∀ c ∈ ds, isDigitChar c = true) :
    matchScoreAt (scoreLit ++ mid ++ ds ++ '/' :: '1' :: '0' :: rest) = some ds := by
  have hpre : scoreLit.isPrefixOf
      (scoreLit ++ (mid ++ ds ++ '/' :: '1' :: '0' :: rest)) = true := by
    have : scoreLit <+: scoreLit ++ (mid ++ ds ++ '/' :: '1' :: '0' :: rest) :=
      ⟨mid ++ ds ++ '/' :: '1' :: '0' :: rest, rfl⟩
    exact List.isPrefixOf_iff_prefix.mpr this
  have hshape : scoreLit ++ mid ++ ds ++ '/' :: '1' :: '0' :: rest =
      scoreLit ++ (mid ++ ds ++ '/' :: '1' :: '0' :: rest) := by simp
  rw [hshape]
  unfold matchScoreAt
  rw [hpre]
  simp only [if_true, List.drop_left]
  exact tailMatch_eval mid ds rest hmid hne hds

theorem searchScoreGroup_append (pre mid ds rest : List Char)
    (hpre : ∀ c ∈ pre, isDigitChar c = false)
    (hmid : ∀ c ∈ mid, isDigitChar c = false) (hne : ds ≠ [])
    (hds : ∀ c ∈ ds, isDigitChar c = true) :
    searchScoreGroup (pre ++ scoreLit ++ mid ++ ds ++ '/' :: '1' :: '0' :: rest) =
      some ds := by
  induction pre with
  | nil =>
    simp only [List.nil_append]
    exact searchScoreGroup_of_matchAt _ ds (matchScoreAt_here mid ds rest hmid hne hds)
  | cons c pre' ih =>
    have hlist : (c :: pre') ++ scoreLit ++ mid ++ ds ++ '/' :: '1' :: '0' :: rest =
        c :: (pre' ++ scoreLit ++ mid ++ ds ++ '/' :: '1' :: '0' :: rest) := by simp
    rw [hlist]
    cases hm : matchScoreAt (c :: (pre' ++ scoreLit ++ mid ++ ds ++
        '/' :: '1' :: '0' :: rest)) with
    | some g =>
      have hshape : c :: (pre' ++ scoreLit ++ mid ++ ds ++ '/' :: '1' :: '0' :: rest) =
          ((c :: pre') ++ scoreLit ++ mid) ++ ds ++ '/' :: '1' :: '0' :: rest := by simp
      rw [hshape] at hm
      have hu : ∀ x ∈ (c :: pre') ++ scoreLit ++ mid, isDigitChar x = false := by
        intro x hx
        rcases List.mem_append.mp hx with hx1 | hx2
        · rcases List.mem_append.mp hx1 with hx3 | hx4
          · exact hpre x hx3
          · exact scoreLit_not_digit x hx4
        · exact hmid x hx2
      have hg := matchScoreAt_parts _ ds rest hu hne hds g hm
      rw [← hshape] at hm
      rw [searchScoreGroup_of_matchAt _ g hm, hg]
    | none =>
      rw [searchScoreGroup_cons_none _ _ hm]
      exact ih (fun x hx => hpre x (by simp [hx]))

/-! ### The well-formed score line and the extractor theorems -/

/-- The score-line marker as the prompt format fixes it (`Overall Fit Score: `). -/
def markerU : List Char :=
  ['O', 'v', 'e', 'r', 'a', 'l', 'l', ' ', 'F', 'i', 't', ' ',
   'S', 'c', 'o', 'r', 'e', ':', ' ']

theorem map_lower_markerU : markerU.map lowerChar = scoreLit ++ [' '] := by decide

theorem map_lower_digits (ds : List Char) (h : ∀ c ∈ ds, isDigitChar c = true) :
    ds.map lowerChar = ds := by
  induction ds with
  | nil => rfl
  | cons c ds ih =>
    simp only [List.map_cons]
    rw [lowerChar_of_digit c (h c (by simp)), ih (fun x hx => h x (by simp [hx]))]

theorem map_lower_nondigit (l : List Char) (h : ∀ c ∈ l, isDigitChar c = false) :
    ∀ c ∈ l.map lowerChar, isDigitChar c = false := by
  intro c hc
  obtain ⟨a, ha, rfl⟩ := List.mem_map.mp hc
  exact isDigitChar_lowerChar a (h a ha)

theorem tailMatch_digits (l g : List Char) (h : tailMatch l = some g) :
    g ≠ [] ∧ ∀ c ∈ g, isDigitChar c = true := by
  simp only [tailMatch] at h
  split at h
  next => exact absurd h (by simp)
  next hne =>
    split at h
    next =>
      have hg : ((l.dropWhile isSpaceChar).dropWhile
          (fun c => !isDigitChar c)).takeWhile isDigitChar = g := Option.some_inj.mp h
      constructor
      · rw [← hg]; exact hne
      · intro c hc
        rw [← hg] at hc
        exact List.mem_takeWhile_imp hc
    next => exact absurd h (by simp)

theorem searchScoreGroup_digits : ∀ (l ds : List Char),
    searchScoreGroup l = some ds → ds ≠ [] ∧ ∀ c ∈ ds, isDigitChar c = true := by
  intro l
  induction l with
  | nil => intro ds h; simp [searchScoreGroup] at h
  | cons c cs ih =>
    intro ds h
    cases hm : matchScoreAt (c :: cs) with
    | some g =>
      simp only [searchScoreGroup, hm] at h
      rw [← Option.some_inj.mp h]
      unfold matchScoreAt at hm
      split at hm
      next => exact tailMatch_digits _ g hm
      next => exact absurd hm (by simp)
    | none =>
      simp only [searchScoreGroup, hm] at h
      exact ih ds h

/-- Claim C2: a reply that carries a well-formed line `Overall Fit Score: N/10`
(with nothing digit-like before it, which pins down the score line the claim
speaks about) makes the extractor return the integer `N`; a reply on which the
pattern search fails yields the sentinel string `N/A`.  The extractor is a
total function, so no exception can escape. -/
theorem c2_fit_score_extractor :
    (∀ (N : Nat) (pre post : List Char), (∀ c ∈ pre, isDigitChar c = false) →
      extractOverallScore (String.mk (pre ++ markerU ++ natDigits N ++
        '/' :: '1' :: '0' :: post)) = some N) ∧
    (∀ reply : String, extractOverallGroup reply = none →
      overallScoreStr reply = "N/A") := by
  constructor
  · intro N pre post hpre
    have key := searchScoreGroup_append (pre.map lowerChar) [' '] (natDigits N)
      (post.map lowerChar) (map_lower_nondigit pre hpre) (by decide)
      (natDigits_ne_nil N) (natDigits_all_digit N)
    unfold extractOverallScore extractOverallGroup
    have hdata : (String.mk (pre ++ markerU ++ natDigits N ++
        '/' :: '1' :: '0' :: post)).data =
        pre ++ markerU ++ natDigits N ++ '/' :: '1' :: '0' :: post := rfl
    rw [hdata, List.map_append, List.map_append, List.map_append, List.map_cons,
      List.map_cons, List.map_cons, map_lower_markerU,
      map_lower_digits (natDigits N) (natDigits_all_digit N),
      show lowerChar '/' = '/' from by decide, show lowerChar '1' = '1' from by decide,
      show lowerChar '0' = '0' from by decide]
    simp only [List.append_assoc] at key ⊢
    rw [key]
    simp [digitsVal_natDigits]
  · intro reply h
    simp [overallScoreStr, h]

/-- Witness for C2 at the concrete reply `Overall Fit Score: 7/10`. -/
theorem c2_fit_score_extractor_witness :
    extractOverallScore "Overall Fit Score: 7/10" = some 7 := by
  have h := c2_fit_score_extractor.1 7 [] [] (by simp)
  exact h

/-- Claim C3 counterexample: the regex accepts any digit run before `/10`, so
the reply `Overall Fit Score: 12/10` extracts the score 12, which is outside
the claimed range 0..10. -/
theorem c3_fit_score_range_counterexample :
    extractOverallScore "Overall Fit Score: 12/10" = some 12 ∧ ¬(12 ≤ 10) :=
  ⟨by decide, by decide⟩

/-- Claim C3 (amended): an extracted fit score is a nonnegative integer — the
value of the captured digit run, which the stored `numeric_score` reproduces —
but the code enforces no upper bound of 10. -/
theorem c3_fit_score_range_amended (reply : String) (n : Nat)
    (h : extractOverallScore reply = some n) :
    pyNumeric (overallScoreStr reply) = (n : Int) ∧ 0 ≤ (n : Int) := by
  unfold extractOverallScore at h
  cases hg : extractOverallGroup reply with
  | none => rw [hg] at h; simp at h
  | some ds =>
    rw [hg] at h
    have hval : digitsVal ds = n := by simpa using h
    obtain ⟨hne, hdig⟩ := searchScoreGroup_digits _ ds hg
    constructor
    · unfold overallScoreStr
      rw [hg]
      unfold pyNumeric pyStrIsDigit
      have hisdigit : (!(String.mk ds).data.isEmpty &&
          (String.mk ds).data.all isDigitChar) = true := by
        simp only [List.all_eq_true, Bool.and_eq_true, Bool.not_eq_true']
        refine ⟨?_, hdig⟩
        cases ds with
        | nil => exact absurd rfl hne
        | cons a l => rfl
      rw [hisdigit]
      simp [hval]
    · exact Int.natCast_nonneg n

/-- Witness for the amended C3 at the concrete reply `Overall Fit Score: 12/10`. -/
theorem c3_fit_score_range_amended_witness :
    pyNumeric (overallScoreStr "Overall Fit Score: 12/10") = (12 : Int) ∧
      0 ≤ (12 : Int) :=
  c3_fit_score_range_amended "Overall Fit Score: 12/10" 12 (by decide)

/-! ## The batch JD match pipeline (`candidate_dashboard.py` lines 979-1064)

The loop body evaluates each selected JD against the resume, regex-extracts
the overall score and the per-section percentages, sorts the result dicts by
the parsed score (descending, stable) and then assigns ranks while deleting
the temporary `numeric_score` key. -/

/-- One result dict of the batch analysis.  `Option` fields model dict keys
that exist only in some phases: `numeric_score` is added in the loop and
deleted during ranking; `rank` is added during ranking. -/
structure MatchEntry where
  jd_name : String
  overall_score : String
  numeric_score : Option Int
  skills_percent : String
  experience_percent : String
  education_percent : String
  full_analysis : String
  rank : Option Nat

/-- Leftmost-occurrence split: `some (before, after)` with
`l = before ++ pat ++ after` at the first occurrence of `pat` in `l`. -/
def splitFirst (pat : List Char) : List Char → Option (List Char × List Char)
  | [] => if pat = [] then some ([], []) else none
  | c :: cs =>
    if pat.isPrefixOf (c :: cs) then some ([], (c :: cs).drop pat.length)
    else
      match splitFirst pat cs with
      | some (pre, rest) => some (c :: pre, rest)
      | none => none

def sectionHeaderLit : List Char := "--- Section Match Analysis ---".data

def strengthsLit : List Char := "Strengths/Matches:".data

/-- Literal of the fallback pattern `Skills Match:\s*(\d+)%` (case-sensitive). -/
def skillsLitU : List Char := "Skills Match:".data

def skillsLitL : List Char := "skills match:".data

def experienceLitL : List Char := "experience match:".data

def educationLitL : List Char := "education match:".data

/-- One attempt of `LIT\s*\[?(\d+)%\]?` at the head of `l`
(`allowBracket = false` drops the `\[?`, as in the fallback pattern).
Returns `(group(0) up to the '%', group(1))`; the optional trailing `\]?`
would only lengthen group(0), which no caller of the bracketed form uses. -/
def pctAt (allowBracket : Bool) (lit l : List Char) : Option (List Char × List Char) :=
  if lit.isPrefixOf l then
    let r0 := l.drop lit.length
    let sp := r0.takeWhile isSpaceChar
    let r1 := r0.drop sp.length
    let br : List Char :=
      if allowBracket then
        match r1 with
        | '[' :: _ => ['[']
        | _ => []
      else []
    let r2 := r1.drop br.length
    let ds := r2.takeWhile isDigitChar
    if ds = [] then none
    else
      match r2.drop ds.length with
      | '%' :: _ => some (lit ++ sp ++ br ++ ds ++ ['%'], ds)
      | _ => none
  else none

/-- `re.search` for the percent patterns: leftmost success wins. -/
def pctSearch (allowBracket : Bool) (lit : List Char) : List Char → Option (List Char × List Char)
  | [] => none
  | c :: cs =>
    match pctAt allowBracket lit (c :: cs) with
    | some r => some r
    | none => pctSearch allowBracket lit cs

/-- Lines 1003-1008: `section_analysis_match.group(0)`.  Pattern
`--- Section Match Analysis ---\s*(.*?)\s*Strengths/Matches:` (DOTALL): the
lazy middle makes group(0) run from the first header occurrence to the first
`Strengths/Matches:` after it; the fallback is `Skills Match:\s*(\d+)%`. -/
def sectionText (fit : List Char) : Option (List Char) :=
  match splitFirst sectionHeaderLit fit with
  | some (_, rest1) =>
    match splitFirst strengthsLit rest1 with
    | some (mid, _) => some (sectionHeaderLit ++ mid ++ strengthsLit)
    | none => (pctSearch false skillsLitU fit).map (fun p => p.1)
  | none => (pctSearch false skillsLitU fit).map (fun p => p.1)

/-- Lines 1014-1016: the inner `LIT:\s*\[?(\d+)%\]?` searches run with
IGNORECASE on the section text. -/
def pctOf (litL sec : List Char) : Option (List Char) :=
  (pctSearch true litL (sec.map lowerChar)).map (fun p => p.2)

/-- Lines 1010-1020: the three percent strings, `'N/A'` when not found. -/
def sectionPercents (fit : List Char) : String × String × String :=
  match sectionText fit with
  | none => ("N/A", "N/A", "N/A")
  | some sec =>
    (match pctOf skillsLitL sec with
     | some ds => String.mk ds
     | none => "N/A",
     match pctOf experienceLitL sec with
     | some ds => String.mk ds
     | none => "N/A",
     match pctOf educationLitL sec with
     | some ds => String.mk ds
     | none => "N/A")

/-- Lines 998-1042: one iteration of the batch loop.  The external call
`evaluate_jd_fit` is an input: `.ok fit_output` is a normal reply, `.error e`
models an exception escaping the `try` body, which appends the sentinel
entry of the `except` branch. -/
def buildEntry (jdName : String) (outcome : Except String String) : MatchEntry :=
  match outcome with
  | .ok fit_output =>
    let overall := overallScoreStr fit_output
    let pcts := sectionPercents fit_output.data
    { jd_name := jdName, overall_score := overall,
      numeric_score := some (pyNumeric overall),
      skills_percent := pcts.1, experience_percent := pcts.2.1,
      education_percent := pcts.2.2, full_analysis := fit_output, rank := none }
  | .error e =>
    { jd_name := jdName, overall_score := "Error", numeric_score := some (-1),
      skills_percent := "Error", experience_percent := "Error",
      education_percent := "Error",
      full_analysis := "Error running analysis for " ++ jdName ++ ": " ++ e,
      rank := none }

/-- Sort key of line 1046: `lambda x: x['numeric_score']`.  Every entry
carries the key when the sort runs; the `getD` default is never hit. -/
def keyOf (e : MatchEntry) : Int := e.numeric_score.getD (-1)

/-- Stable descending insertion.  Python's `list.sort(key=..., reverse=True)`
is a stable sort under the same total preorder, and a stable sort's output is
unique, so this insertion sort computes exactly the Python result. -/
def insertDesc (x : MatchEntry) : List MatchEntry → List MatchEntry
  | [] => [x]
  | y :: ys => if keyOf y ≤ keyOf x then x :: y :: ys else y :: insertDesc x ys

/-- Line 1046: `results_with_score.sort(key=lambda x: x['numeric_score'], reverse=True)`. -/
def sortDesc : List MatchEntry → List MatchEntry
  | [] => []
  | x :: xs => insertDesc x (sortDesc xs)

/-- Lines 1049-1059: the rank-assignment loop over the sorted list, carrying
`current_rank`, `current_score` and the 0-based index, writing `rank` and
deleting `numeric_score`. -/
def rankLoop : Nat → Int → Nat → List MatchEntry → List MatchEntry
  | _, _, _, [] => []
  | curRank, curScore, i, e :: es =>
    let n := e.numeric_score.getD (-1)
    if curScore < n then
      { e with rank := some (i + 1), numeric_score := none } ::
        rankLoop (i + 1) n (i + 1) es
    else
      { e with rank := some curRank, numeric_score := none } ::
        rankLoop curRank curScore (i + 1) es

/-- Lines 979-1061: the whole `Run Match Analysis` action over the selected
JDs, with each JD's LLM outcome provided as input. -/
def runBatch (jds : List (String × Except String String)) : List MatchEntry :=
  rankLoop 1 (-1) 0 (sortDesc (jds.map (fun p => buildEntry p.1 p.2)))

/-! ### Invariants of the batch pipeline -/

/-- Every built entry stores under `numeric_score` exactly the integer parsed
out of its `overall_score` string (`-1` for non-digit strings). -/
def entryInv (e : MatchEntry) : Prop :=
  e.numeric_score = some (pyNumeric e.overall_score)

theorem buildEntry_inv (n : String) (oc : Except String String) :
    entryInv (buildEntry n oc) := by
  cases oc with
  | ok fit => rfl
  | error e =>
    show some (-1) = some (pyNumeric "Error")
    decide

theorem buildEntry_name (n : String) (oc : Except String String) :
    (buildEntry n oc).jd_name = n := by
  cases oc <;> rfl

theorem insertDesc_perm (x : MatchEntry) (l : List MatchEntry) :
    (insertDesc x l).Perm (x :: l) := by
  induction l with
  | nil => simp [insertDesc]
  | cons y ys ih =>
    rw [insertDesc]
    split
    next => exact List.Perm.refl _
    next => exact (ih.cons y).trans (List.Perm.swap x y ys)

theorem sortDesc_perm (l : List MatchEntry) : (sortDesc l).Perm l := by
  induction l with
  | nil => simp [sortDesc]
  | cons x xs ih =>
    rw [sortDesc]
    exact (insertDesc_perm x (sortDesc xs)).trans (ih.cons x)

theorem mem_insertDesc (a x : MatchEntry) (l : List MatchEntry)
    (h : a ∈ insertDesc x l) : a = x ∨ a ∈ l := by
  have := (insertDesc_perm x l).mem_iff.mp h
  simpa using this

theorem insertDesc_sorted (x : MatchEntry) (l : List MatchEntry)
    (h : l.Pairwise (fun a b => keyOf b ≤ keyOf a)) :
    (insertDesc x l).Pairwise (fun a b => keyOf b ≤ keyOf a) := by
  induction l with
  | nil => simp [insertDesc]
  | cons y ys ih =>
    rw [insertDesc]
    rcases List.pairwise_cons.mp h with ⟨hy, hys⟩
    split
    next hxy =>
      refine List.pairwise_cons.mpr ⟨?_, h⟩
      intro b hb
      rcases List.mem_cons.mp hb with rfl | hb2
      · exact hxy
      · exact le_trans (hy b hb2) hxy
    next hxy =>
      refine List.pairwise_cons.mpr ⟨?_, ih hys⟩
      intro b hb
      rcases mem_insertDesc b x ys hb with rfl | hb2
      · exact le_of_not_le hxy
      · exact hy b hb2

theorem sortDesc_sorted (l : List MatchEntry) :
    (sortDesc l).Pairwise (fun a b => keyOf b ≤ keyOf a) := by
  induction l with
  | nil => simp [sortDesc]
  | cons x xs ih =>
    rw [sortDesc]
    exact insertDesc_sorted x (sortDesc xs) ih

theorem rankLoop_proj (l : List MatchEntry) : ∀ (r : Nat) (s : Int) (i : Nat),
    (rankLoop r s i l).map (fun e => (e.jd_name, e.overall_score)) =
      l.map (fun e => (e.jd_name, e.overall_score)) := by
  induction l with
  | nil => intro r s i; rfl
  | cons e es ih =>
    intro r s i
    simp only [rankLoop]
    split <;> simp [ih]

theorem rankLoop_shape (l : List MatchEntry) : ∀ (r : Nat) (s : Int) (i : Nat),
    ∀ e ∈ rankLoop r s i l, e.rank.isSome ∧ e.numeric_score = none := by
  induction l with
  | nil => intro r s i e he; simp [rankLoop] at he
  | cons x xs ih =>
    intro r s i e he
    simp only [rankLoop] at he
    split at he <;>
      rcases List.mem_cons.mp he with rfl | htail
    · exact ⟨rfl, rfl⟩
    · exact ih _ _ _ e htail
    · exact ⟨rfl, rfl⟩
    · exact ih _ _ _ e htail

theorem rankLoop_exists_like (l : List MatchEntry) : ∀ (r : Nat) (s : Int) (i : Nat),
    ∀ e ∈ l, ∃ e2 ∈ rankLoop r s i l,
      e2.jd_name = e.jd_name ∧ e2.overall_score = e.overall_score := by
  induction l with
  | nil => intro r s i e he; simp at he
  | cons x xs ih =>
    intro r s i e he
    rcases List.mem_cons.mp he with rfl | htail
    · simp only [rankLoop]
      split
      next => exact ⟨_, List.mem_cons_self _ _, rfl, rfl⟩
      next => exact ⟨_, List.mem_cons_self _ _, rfl, rfl⟩
    · simp only [rankLoop]
      split
      next =>
        obtain ⟨e2, he2, hp⟩ := ih (i + 1) (x.numeric_score.getD (-1)) (i + 1) e htail
        exact ⟨e2, List.mem_cons_of_mem _ he2, hp⟩
      next =>
        obtain ⟨e2, he2, hp⟩ := ih r s (i + 1) e htail
        exact ⟨e2, List.mem_cons_of_mem _ he2, hp⟩

/-- Claim C7: after every run of the batch match analysis the stored result
list is sorted in non-increasing order of the integer parsed out of each
entry's `overall_score` string, where a non-digit string (such as `N/A` or
`Error`) counts as `-1` and therefore sorts after every numeric score. -/
theorem c7_results_sorted_by_score (jds : List (String × Except String String)) :
    (runBatch jds).Pairwise
      (fun a b => pyNumeric b.overall_score ≤ pyNumeric a.overall_score) ∧
    ∀ s : String, pyStrIsDigit s = false → pyNumeric s = -1 := by
  constructor
  · have hinv : ∀ e ∈ jds.map (fun p => buildEntry p.1 p.2), entryInv e := by
      intro e he
      obtain ⟨p, _, rfl⟩ := List.mem_map.mp he
      exact buildEntry_inv p.1 p.2
    have hperm := sortDesc_perm (jds.map (fun p => buildEntry p.1 p.2))
    have hinvS : ∀ e ∈ sortDesc (jds.map (fun p => buildEntry p.1 p.2)), entryInv e :=
      fun e he => hinv e (hperm.mem_iff.mp he)
    have hsorted2 : (sortDesc (jds.map (fun p => buildEntry p.1 p.2))).Pairwise
        (fun a b => pyNumeric b.overall_score ≤ pyNumeric a.overall_score) := by
      refine (sortDesc_sorted _).imp_of_mem ?_
      intro a b ha hb hr
      have ia := hinvS a ha
      have ib := hinvS b hb
      unfold entryInv at ia ib
      simpa [keyOf, ia, ib] using hr
    have h1 : ((rankLoop 1 (-1) 0 (sortDesc (jds.map (fun p => buildEntry p.1 p.2)))).map
        (fun e => (e.jd_name, e.overall_score))).Pairwise
        (fun p q => pyNumeric q.2 ≤ pyNumeric p.2) := by
      rw [rankLoop_proj]
      exact List.pairwise_map.mpr hsorted2
    exact List.pairwise_map.mp h1
  · intro s hs
    simp [pyNumeric, hs]

def c7Demo : List (String × Except String String) :=
  [("JD small", Except.ok "Overall Fit Score: 5/10"),
   ("JD none", Except.ok "no score in this reply"),
   ("JD big", Except.ok "Overall Fit Score: 9/10")]

/-- Witness for C7: a concrete batch with scores 5, N/A, 9 and the sentinel
value of the non-digit string `N/A`. -/
theorem c7_results_sorted_by_score_witness :
    (runBatch c7Demo).Pairwise
      (fun a b => pyNumeric b.overall_score ≤ pyNumeric a.overall_score) ∧
      pyNumeric "N/A" = -1 := by
  have h := c7_results_sorted_by_score c7Demo
  exact ⟨h.1, h.2 "N/A" (by decide)⟩

/-- Claim C9: every batch run stores exactly one entry per selected JD (an
exception for one JD appends the sentinel entry instead of aborting), and
every stored entry carries a `rank` key and no `numeric_score` key. -/
theorem c9_batch_invariants (jds : List (String × Except String String)) :
    (runBatch jds).length = jds.length ∧
    ((runBatch jds).map (fun e => e.jd_name)).Perm (jds.map (fun p => p.1)) ∧
    (∀ e ∈ runBatch jds, e.rank.isSome ∧ e.numeric_score = none) ∧
    (∀ p ∈ jds, ∀ msg, p.2 = Except.error msg →
      ∃ e ∈ runBatch jds, e.jd_name = p.1 ∧ e.overall_score = "Error" ∧
        pyNumeric e.overall_score = -1) := by
  have hnames : (runBatch jds).map (fun e => e.jd_name) =
      (sortDesc (jds.map (fun p => buildEntry p.1 p.2))).map (fun e => e.jd_name) := by
    have h := rankLoop_proj (sortDesc (jds.map (fun p => buildEntry p.1 p.2))) 1 (-1) 0
    have h1 := congrArg (List.map Prod.fst) h
    simpa [runBatch, List.map_map, Function.comp] using h1
  have hperm := sortDesc_perm (jds.map (fun p => buildEntry p.1 p.2))
  refine ⟨?_, ?_, ?_, ?_⟩
  · have := congrArg List.length hnames
    simpa [hperm.length_eq] using this
  · rw [hnames]
    have hp2 : ((sortDesc (jds.map (fun p => buildEntry p.1 p.2))).map
        (fun e => e.jd_name)).Perm
        ((jds.map (fun p => buildEntry p.1 p.2)).map (fun e => e.jd_name)) :=
      hperm.map _
    refine hp2.trans ?_
    rw [List.map_map]
    have : ((fun e : MatchEntry => e.jd_name) ∘ fun p : String × Except String String =>
        buildEntry p.1 p.2) = fun p : String × Except String String => p.1 := by
      funext p
      exact buildEntry_name p.1 p.2
    rw [this]
  · exact rankLoop_shape _ 1 (-1) 0
  · intro p hp msg hmsg
    have hmem : buildEntry p.1 p.2 ∈ jds.map (fun q => buildEntry q.1 q.2) :=
      List.mem_map_of_mem _ hp
    have hmemS : buildEntry p.1 p.2 ∈ sortDesc (jds.map (fun q => buildEntry q.1 q.2)) :=
      hperm.mem_iff.mpr hmem
    obtain ⟨e2, he2, hname, hoverall⟩ :=
      rankLoop_exists_like _ 1 (-1) 0 _ hmemS
    refine ⟨e2, he2, ?_, ?_, ?_⟩
    · rw [hname, buildEntry_name]
    · rw [hoverall, hmsg]
      rfl
    · rw [hoverall, hmsg]
      show pyNumeric "Error" = -1
      decide

def c9Demo : List (String × Except String String) :=
  [("JD boom", Except.error "exception text"),
   ("JD fine", Except.ok "Overall Fit Score: 9/10")]

/-- Witness for C9: a two-JD batch where the first JD's evaluation raises. -/
theorem c9_batch_invariants_witness :
    (runBatch c9Demo).length = c9Demo.length ∧
    ∃ e ∈ runBatch c9Demo, e.jd_name = "JD boom" ∧ e.overall_score = "Error" ∧
      pyNumeric e.overall_score = -1 := by
  have h := c9_batch_invariants c9Demo
  refine ⟨h.1, ?_⟩
  exact h.2.2.2 ("JD boom", Except.error "exception text")
    (by simp [c9Demo]) "exception text" rfl

def c1Jds : List (String × Except String String) :=
  [("JD A", Except.ok "Overall Fit Score: 7/10"),
   ("JD B", Except.ok "Overall Fit Score: 9/10"),
   ("JD C", Except.ok "Overall Fit Score: 9/10"),
   ("JD D", Except.ok "Overall Fit Score: 5/10")]

/-- Claim C1 (code bug, evaluation at the failing input): for scores
[7, 9, 9, 5] the ranking loop assigns rank 1 to every result — the guard
`numeric_score > current_score` can never fire after the first element of the
descending list — instead of the competition ranks [1, 1, 3, 4] (that is,
[3, 1, 1, 4] in input order) that the spec requires. -/
theorem c1_rank_all_ones_at_failing_input :
    (runBatch c1Jds).map (fun e => (e.jd_name, e.rank.getD 0)) =
      [("JD B", 1), ("JD C", 1), ("JD A", 1), ("JD D", 1)] ∧
    (runBatch c1Jds).map (fun e => e.rank.getD 0) ≠ [1, 1, 3, 4] := by
  exact ⟨by decide, by decide⟩

/-! ## Session list collections (`candidate_dashboard.py` lines 856-872, 890-907) -/

/-- One JD dict of `st.session_state.candidate_jd_list`:
`{"name": ..., "content": ..., **metadata}`. -/
structure JDRecord where
  name : String
  content : String
  role : String
  job_type : String
  key_skills : List String

/-- Lines 871 and 906: `st.session_state.candidate_jd_list.append({...})`. -/
def addJD (l : List JDRecord) (item : JDRecord) : List JDRecord := l ++ [item]

/-- Modelled from the spec: the remove-entry operation of the
education/experience/certification/project collections (spec section 8,
"Add/remove list entry operations ... must not change indices of entries
before the removed one"); it deletes the entry at one index.  That code is
not under `src/` — the sources only append and clear-all. -/
def removeEntryAt (l : List JDRecord) (i : Nat) : List JDRecord := l.eraseIdx i

theorem eraseIdx_take_of_lt : ∀ (l : List JDRecord) (j : Nat), j < l.length →
    (l.eraseIdx j).take j = l.take j := by
  intro l
  induction l with
  | nil => intro j hj; simp at hj
  | cons a l ih =>
    intro j hj
    cases j with
    | zero => simp
    | succ j' =>
      simp only [List.eraseIdx_cons_succ, List.take_succ_cons]
      rw [ih j' (by simpa using hj)]

/-- Claim C5: appending leaves every existing entry and its index unchanged
(the old list is exactly the prefix of the new one), removal keeps the
relative order of the untouched entries (the result is a sublist) and leaves
every index before the removed position unchanged. -/
theorem c5_list_ops_frame (l : List JDRecord) (x : JDRecord) (j : Nat) :
    (addJD l x).take l.length = l ∧
    (addJD l x).length = l.length + 1 ∧
    (removeEntryAt l j).Sublist l ∧
    (j < l.length → (removeEntryAt l j).take j = l.take j) := by
  refine ⟨List.take_left _ _, by simp [addJD], List.eraseIdx_sublist l j, ?_⟩
  intro hj
  exact eraseIdx_take_of_lt l j hj

def c5Demo : List JDRecord :=
  [⟨"JD 1", "content 1", "role", "Full-Time", ["python"]⟩,
   ⟨"JD 2", "content 2", "role", "Full-Time", ["sql"]⟩]

/-- Witness for C5 on a concrete two-entry JD list with removal index 1. -/
theorem c5_list_ops_frame_witness :
    (addJD c5Demo ⟨"JD 3", "content 3", "role", "Contract", []⟩).take 2 = c5Demo ∧
    (removeEntryAt c5Demo 1).take 1 = c5Demo.take 1 := by
  have h := c5_list_ops_frame c5Demo ⟨"JD 3", "content 3", "role", "Contract", []⟩ 1
  exact ⟨h.1, h.2.2.2 (by simp [c5Demo])⟩

/-! ## The login page (`main_app.py` lines 46-79) -/

/-- The session-state fields that the login flow touches. -/
structure AppState where
  logged_in : Bool
  user_type : Option String
  page : String

/-- Python `str.lower` (ASCII model; every comparison target is ASCII). -/
def pyLower (s : String) : String := String.mk (s.data.map lowerChar)

/-- Lines 58-79: the submit branch of the login form.  The password is read
but never inspected. -/
def loginSubmit (st : AppState) (username _password : String) : AppState :=
  let user := pyLower username
  if user = "candidate" then
    { st with
      logged_in := true
      user_type := some "candidate"
      page := "candidate_dashboard" }
  else if user = "admin" then
    { st with
      logged_in := true
      user_type := some "admin"
      page := "admin_dashboard" }
  else if user = "hiring" then
    { st with
      logged_in := true
      user_type := some "hiring"
      page := "hiring_dashboard" }
  else st

/-- Claim C8 counterexample: on a valid login the page is set to the role's
dashboard page, not to the role string itself: logging in as `candidate`
leaves `page = "candidate_dashboard" ≠ "candidate"`. -/
theorem c8_page_not_role_counterexample :
    (loginSubmit ⟨false, none, "login"⟩ "candidate" "any").page =
      "candidate_dashboard" ∧
    (loginSubmit ⟨false, none, "login"⟩ "candidate" "any").page ≠ "candidate" :=
  ⟨rfl, by decide⟩

/-- Claim C8 (amended): an unknown lowercased username leaves the session
state untouched; each of the three known usernames sets `logged_in := true`,
`user_type` to that role and `page` to that role's dashboard page
`"<role>_dashboard"`, for any password. -/
theorem c8_login_characterization (st : AppState) (u pw : String) :
    (pyLower u ∉ (["candidate", "admin", "hiring"] : List String) →
      loginSubmit st u pw = st) ∧
    (pyLower u = "candidate" → loginSubmit st u pw =
      { st with
        logged_in := true
        user_type := some "candidate"
        page := "candidate_dashboard" }) ∧
    (pyLower u = "admin" → loginSubmit st u pw =
      { st with
        logged_in := true
        user_type := some "admin"
        page := "admin_dashboard" }) ∧
    (pyLower u = "hiring" → loginSubmit st u pw =
      { st with
        logged_in := true
        user_type := some "hiring"
        page := "hiring_dashboard" }) := by
  refine ⟨?_, ?_, ?_, ?_⟩
  · intro h
    simp only [List.mem_cons, List.mem_singleton, not_or] at h
    simp [loginSubmit, h.1, h.2.1, h.2.2]
  · intro h
    simp [loginSubmit, h]
  · intro h
    simp [loginSubmit, h]
  · intro h
    simp [loginSubmit, h]

/-- Witness for C8: a capitalised valid username and an invalid one, at the
login state. -/
theorem c8_login_characterization_witness :
    loginSubmit ⟨false, none, "login"⟩ "Candidate" "pw" =
      ⟨true, some "candidate", "candidate_dashboard"⟩ ∧
    loginSubmit ⟨false, none, "login"⟩ "bob" "pw" = ⟨false, none, "login"⟩ := by
  have h1 := c8_login_characterization ⟨false, none, "login"⟩ "Candidate" "pw"
  have h2 := c8_login_characterization ⟨false, none, "login"⟩ "bob" "pw"
  exact ⟨h1.2.1 (by decide), h2.1 (by decide)⟩

/-! ## The dashboard dispatch (`main_app.py` lines 90-97;
`candidate_dashboard.py` line 651; `hiring_dashboard.py` lines 3-21) -/

/-- Callable model: for the dispatch claim only the positional-parameter
count and the body's name references matter. -/
structure PyFunc where
  params : List String

/-- Line 651 of `candidate_dashboard.py`: `def candidate_dashboard():`. -/
def candidate_dashboard_decl : PyFunc := { params := [] }

/-- Line 3 of `hiring_dashboard.py`: `def hiring_dashboard(go_to_func):`. -/
def hiring_dashboard_decl : PyFunc := { params := ["go_to_func"] }

/-- Python call semantics: a positional-arity mismatch raises `TypeError`. -/
def callWithArgs (f : PyFunc) (nargs : Nat) : Except String Unit :=
  if nargs = f.params.length then Except.ok () else Except.error "TypeError"

/-- Names bound in the body of `hiring_dashboard`: its parameter and the
module-level import of `streamlit as st`. -/
def hiringBoundNames : List String := ["go_to_func", "st"]

/-- Python name resolution: an unbound name raises `NameError`. -/
def lookupName (env : List String) (n : String) : Except String Unit :=
  if n ∈ env then Except.ok () else Except.error ("NameError: " ++ n)

/-- The free names the body of `hiring_dashboard` dereferences, in execution
order: line 11 `with nav_col:` and line 18 `go_to("login")` use names that
are never bound (the stray indentation of line 11 even aborts the module
at import time; the NameError model subsumes that — the body cannot run). -/
def runHiringBody : Except String Unit := do
  _ ← lookupName hiringBoundNames "st"
  _ ← lookupName hiringBoundNames "nav_col"
  _ ← lookupName hiringBoundNames "go_to"
  Except.ok ()

/-- Lines 90-97 of `main_app.py`: the post-login dispatch, each dashboard
invoked with the single argument `go_to`. -/
def dispatch (user_type : String) : Except String String :=
  if user_type = "admin" then Except.ok "admin_dashboard rendered"
  else if user_type = "candidate" then do
    _ ← callWithArgs candidate_dashboard_decl 1
    Except.ok "candidate_dashboard rendered"
  else if user_type = "hiring" then do
    _ ← callWithArgs hiring_dashboard_decl 1
    _ ← runHiringBody
    Except.ok "hiring_dashboard rendered"
  else Except.ok "login_page rendered"

/-- Claim C10: `candidate_dashboard` is declared with zero parameters but
called with one argument, so a candidate login raises `TypeError` instead of
rendering; `hiring_dashboard` accepts its one argument but its body
dereferences the unbound names `nav_col` and `go_to`, so a hiring login
raises instead of rendering. -/
theorem c10_dispatch_raises :
    candidate_dashboard_decl.params.length = 0 ∧
    dispatch "candidate" = Except.error "TypeError" ∧
    hiring_dashboard_decl.params.length = 1 ∧
    ("nav_col" ∉ hiringBoundNames ∧ "go_to" ∉ hiringBoundNames) ∧
    dispatch "hiring" = Except.error "NameError: nav_col" :=
  ⟨rfl, rfl, rfl, ⟨by decide, by decide⟩, rfl⟩

/-! ## JSON serialization and parsing (`cv_management_tab_content`, lines 508-517)

The export button runs `json.dumps(st.session_state.parsed, indent=4)` and a
reload is `json.loads` of that string.  The model embeds the JSON value space
(numbers as integers: the structured CV fields are strings, lists and
objects; floating-point numbers are outside the embedding), `dumps` with
`indent=4` and `ensure_ascii=True` (the CPython defaults: short escapes,
`\uXXXX` for other control and non-ASCII characters, surrogate pairs beyond
the BMP) and a recursive-descent `loads` with a fuel argument that keeps
every function structurally recursive. -/

inductive Json : Type where
  | null : Json
  | bool (b : Bool) : Json
  | num (n : Int) : Json
  | str (s : String) : Json
  | arr (elems : List Json) : Json
  | obj (fields : List (String × Json)) : Json

/-- Lowercase hex digit, as `%04x` prints it. -/
def hexDig (d : Nat) : Char :=
  if d < 10 then Char.ofNat (48 + d) else Char.ofNat (87 + d)

def hex4 (n : Nat) : List Char :=
  [hexDig (n / 4096 % 16), hexDig (n / 256 % 16), hexDig (n / 16 % 16), hexDig (n % 16)]

/-- `json.dumps` escaping of one character (`ensure_ascii=True`). -/
def escapeChar (c : Char) : List Char :=
  if c = '"' then ['\\', '"']
  else if c = '\\' then ['\\', '\\']
  else if c = '\n' then ['\\', 'n']
  else if c = '\t' then ['\\', 't']
  else if c = '\r' then ['\\', 'r']
  else if c.toNat = 8 then ['\\', 'b']
  else if c.toNat = 12 then ['\\', 'f']
  else if c.toNat < 32 || 126 < c.toNat then
    if c.toNat < 65536 then '\\' :: 'u' :: hex4 c.toNat
    else ('\\' :: 'u' :: hex4 (55296 + (c.toNat - 65536) / 1024)) ++
      ('\\' :: 'u' :: hex4 (56320 + (c.toNat - 65536) % 1024))
  else [c]

def escapeStr : List Char → List Char
  | [] => []
  | c :: cs => escapeChar c ++ escapeStr cs

/-- A JSON string literal (`"..."` with escapes). -/
def dumpStr (s : String) : List Char := '"' :: escapeStr s.data ++ ['"']

/-- A JSON integer literal. -/
def intDigits (n : Int) : List Char :=
  if n < 0 then '-' :: natDigits n.natAbs else natDigits n.toNat

/-- The newline-plus-indentation that `indent=4` inserts before an item at
nesting depth `d`. -/
def nlIndent (d : Nat) : List Char := '\n' :: List.replicate (4 * d) ' '

mutual

/-- `json.dumps(v, indent=4)` at nesting depth `d`. -/
def dumpVal : Nat → Json → List Char
  | _, .null => "null".data
  | _, .bool true => "true".data
  | _, .bool false => "false".data
  | _, .num n => intDigits n
  | _, .str s => dumpStr s
  | d, .arr l =>
    if l.isEmpty then ['[', ']']
    else '[' :: dumpItems (d + 1) l ++ nlIndent d ++ [']']
  | d, .obj ms =>
    if ms.isEmpty then ['{', '}']
    else '{' :: dumpMembers (d + 1) ms ++ nlIndent d ++ ['}']

/-- The comma-separated, indented items of a nonempty array. -/
def dumpItems : Nat → List Json → List Char
  | _, [] => []
  | d, [x] => nlIndent d ++ dumpVal d x
  | d, x :: y :: ys => nlIndent d ++ dumpVal d x ++ ',' :: dumpItems d (y :: ys)

/-- The comma-separated, indented `"key": value` members of a nonempty object. -/
def dumpMembers : Nat → List (String × Json) → List Char
  | _, [] => []
  | d, [(k, v)] => nlIndent d ++ dumpStr k ++ ':' :: ' ' :: dumpVal d v
  | d, (k, v) :: kv :: kvs =>
    nlIndent d ++ dumpStr k ++ ':' :: ' ' :: dumpVal d v ++ ',' :: dumpMembers d (kv :: kvs)

end

/-- Line 510: `json.dumps(st.session_state.parsed, indent=4)`. -/
def dumps (j : Json) : String := String.mk (dumpVal 0 j)

/-- JSON inter-token whitespace (also what `json.loads` skips). -/
def isJsonWs (c : Char) : Bool :=
  c.toNat = 32 || c.toNat = 9 || c.toNat = 10 || c.toNat = 13

def skipWs (l : List Char) : List Char := l.dropWhile isJsonWs

def parseHexDig (c : Char) : Option Nat :=
  if 48 ≤ c.toNat && c.toNat ≤ 57 then some (c.toNat - 48)
  else if 97 ≤ c.toNat && c.toNat ≤ 102 then some (c.toNat - 87)
  else if 65 ≤ c.toNat && c.toNat ≤ 70 then some (c.toNat - 55)
  else none

/-- The value of one short escape character (`\"`, `\\`, `\/`, `\n`, `\t`,
`\r`, `\b`, `\f`). -/
def escCode (e : Char) : Option Nat :=
  if e = '"' then some 34
  else if e = '\\' then some 92
  else if e = '/' then some 47
  else if e = 'n' then some 10
  else if e = 't' then some 9
  else if e = 'r' then some 13
  else if e = 'b' then some 8
  else if e = 'f' then some 12
  else none

/-- The value of four hex digits. -/
def hexQuad (a b x y : Char) : Option Nat :=
  match parseHexDig a, parseHexDig b, parseHexDig x, parseHexDig y with
  | some a2, some b2, some x2, some y2 => some (4096 * a2 + 256 * b2 + 16 * x2 + y2)
  | _, _, _, _ => none

mutual

/-- Body of a JSON string after the opening quote, as UTF-16 code units (the
way the CPython scanner reads it); returns the units and the input after the
closing quote.  Unescaped control characters are rejected (`strict=True`). -/
def parseRawStr : List Char → Option (List Nat × List Char)
  | [] => none
  | c :: r =>
    if c = '"' then some ([], r)
    else if c = '\\' then parseRawEsc r
    else if c.toNat < 32 then none
    else (parseRawStr r).map (fun p => (c.toNat :: p.1, p.2))

/-- One escape sequence after the backslash. -/
def parseRawEsc : List Char → Option (List Nat × List Char)
  | [] => none
  | e :: r1 =>
    if e = 'u' then parseRawU r1
    else
      match escCode e with
      | some n => (parseRawStr r1).map (fun p => (n :: p.1, p.2))
      | none => none

/-- The four hex digits of a `\uXXXX` escape. -/
def parseRawU : List Char → Option (List Nat × List Char)
  | h1 :: h2 :: h3 :: h4 :: r2 =>
    match hexQuad h1 h2 h3 h4 with
    | some v => (parseRawStr r2).map (fun p => (v :: p.1, p.2))
    | none => none
  | _ => none

end

mutual

/-- Combine UTF-16 code units back into characters: a high surrogate must be
followed by a low one (a lone surrogate is not a Unicode scalar and has no
`Char`; CPython would keep it as a lone-surrogate `str`, which this embedding
cannot represent). -/
def combineUnits : List Nat → Option (List Char)
  | [] => some []
  | v :: vs =>
    if 55296 ≤ v ∧ v ≤ 56319 then combineLow v vs
    else if 56320 ≤ v ∧ v ≤ 57343 then none
    else (combineUnits vs).map (fun cs => Char.ofNat v :: cs)

/-- The low-surrogate continuation after a high surrogate `v`. -/
def combineLow (v : Nat) : List Nat → Option (List Char)
  | [] => none
  | w :: vs =>
    if 56320 ≤ w ∧ w ≤ 57343 then
      (combineUnits vs).map (fun cs =>
        Char.ofNat (65536 + 1024 * (v - 55296) + (w - 56320)) :: cs)
    else none

end

/-- Body of a JSON string after the opening quote: scan the code units, then
recombine surrogate pairs. -/
def parseStrBody (l : List Char) : Option (List Char × List Char) :=
  match parseRawStr l with
  | some (us, r) =>
    match combineUnits us with
    | some cs => some (cs, r)
    | none => none
  | none => none

/-- A JSON integer literal (the grammar rejects leading zeros; a following
`.`/`e`/`E` means a float, which is outside the integer embedding). -/
def parseNumFrom (l : List Char) : Option (Nat × List Char) :=
  match l.takeWhile isDigitChar with
  | [] => none
  | d0 :: ds' =>
    if d0 == '0' && !ds'.isEmpty then none
    else
      match l.drop (d0 :: ds').length with
      | [] => some (digitsVal (d0 :: ds'), [])
      | c :: r =>
        if c = '.' ∨ c = 'e' ∨ c = 'E' then none
        else some (digitsVal (d0 :: ds'), c :: r)

/-- Expect an exact literal continuation (`ull`, `rue`, `alse`). -/
def afterLit (lit l : List Char) : Option (List Char) :=
  if lit.isPrefixOf l then some (l.drop lit.length) else none

mutual

/-- One JSON value (recursive descent with a fuel bound on nesting depth). -/
def parseVal : Nat → List Char → Option (Json × List Char)
  | 0, _ => none
  | f + 1, l =>
    match skipWs l with
    | [] => none
    | c :: r =>
      if c = 'n' then
        match afterLit ['u', 'l', 'l'] r with
        | some r2 => some (.null, r2)
        | none => none
      else if c = 't' then
        match afterLit ['r', 'u', 'e'] r with
        | some r2 => some (.bool true, r2)
        | none => none
      else if c = 'f' then
        match afterLit ['a', 'l', 's', 'e'] r with
        | some r2 => some (.bool false, r2)
        | none => none
      else if c = '"' then
        (parseStrBody r).map (fun p => (.str (String.mk p.1), p.2))
      else if c = '[' then
        match skipWs r with
        | [] => none
        | c1 :: r2 =>
          if c1 = ']' then some (.arr [], r2)
          else (parseItems f r).map (fun p => (.arr p.1, p.2))
      else if c = '{' then
        match skipWs r with
        | [] => none
        | c1 :: r2 =>
          if c1 = '}' then some (.obj [], r2)
          else (parseMembers f r).map (fun p => (.obj p.1, p.2))
      else if c = '-' then
        match parseNumFrom r with
        | some (m, r2) => some (.num (-(m : Int)), r2)
        | none => none
      else
        match parseNumFrom (c :: r) with
        | some (m, r2) => some (.num (m : Int), r2)
        | none => none

/-- The comma-separated items of a nonempty array, up to and including `]`. -/
def parseItems : Nat → List Char → Option (List Json × List Char)
  | 0, _ => none
  | f + 1, l =>
    match parseVal f l with
    | some (v, r) =>
      match skipWs r with
      | [] => none
      | c :: r2 =>
        if c = ',' then
          match parseItems f r2 with
          | some (vs, r3) => some (v :: vs, r3)
          | none => none
        else if c = ']' then some ([v], r2)
        else none
    | none => none

/-- The comma-separated members of a nonempty object, up to and including `}`. -/
def parseMembers : Nat → List Char → Option (List (String × Json) × List Char)
  | 0, _ => none
  | f + 1, l =>
    match skipWs l with
    | [] => none
    | c :: r =>
      if c = '"' then
        match parseStrBody r with
        | some (k, r1) =>
          match skipWs r1 with
          | [] => none
          | c2 :: r2 =>
            if c2 = ':' then
              match parseVal f r2 with
              | some (v, r3) =>
                match skipWs r3 with
                | [] => none
                | c3 :: r4 =>
                  if c3 = ',' then
                    match parseMembers f r4 with
                    | some (ms, r5) => some ((String.mk k, v) :: ms, r5)
                    | none => none
                  else if c3 = '}' then some ([(String.mk k, v)], r4)
                  else none
              | none => none
            else none
        | none => none
      else none

end

/-- `json.loads`: parse one value, allow trailing whitespace, reject anything
else after it. -/
def loads (s : String) : Option Json :=
  match parseVal (s.data.length + 1) s.data with
  | some (j, r) => if skipWs r = [] then some j else none
  | none => none

/-- No duplicate keys among the members of one object. -/
def nodupKeysB : List (String × Json) → Bool
  | [] => true
  | (k, _) :: ms => !(ms.any (fun kv => kv.1 == k)) && nodupKeysB ms

mutual

/-- Well-formedness as a Python dict tree: every object's keys are distinct
(a Python dict cannot hold a duplicate key). -/
def jsonWF : Json → Bool
  | .null => true
  | .bool _ => true
  | .num _ => true
  | .str _ => true
  | .arr l => jsonWFList l
  | .obj ms => nodupKeysB ms && jsonWFObj ms

def jsonWFList : List Json → Bool
  | [] => true
  | x :: xs => jsonWF x && jsonWFList xs

def jsonWFObj : List (String × Json) → Bool
  | [] => true
  | (_, v) :: ms => jsonWF v && jsonWFObj ms

end

mutual

/-- Fuel needed by `parseVal` on the printed form (an upper bound on the
nesting structure). -/
def jsonFuel : Json → Nat
  | .null => 1
  | .bool _ => 1
  | .num _ => 1
  | .str _ => 1
  | .arr l => 1 + jsonFuelItems l
  | .obj ms => 1 + jsonFuelMembers ms

def jsonFuelItems : List Json → Nat
  | [] => 0
  | x :: xs => 1 + max (jsonFuel x) (jsonFuelItems xs)

def jsonFuelMembers : List (String × Json) → Nat
  | [] => 0
  | (_, v) :: ms => 1 + max (jsonFuel v) (jsonFuelMembers ms)

end

/-! ### Round-trip lemmas: whitespace, hex, strings, numbers -/

/-- A character after which a parsed integer literal correctly ends: not a
digit and not a float continuation (`.`/`e`/`E`). -/
def numStop : List Char → Bool
  | [] => true
  | c :: _ => !isDigitChar c && !(c == '.') && !(c == 'e') && !(c == 'E')

theorem skipWs_append_ws (ws : List Char) (hws : ∀ c ∈ ws, isJsonWs c = true)
    (l : List Char) : skipWs (ws ++ l) = skipWs l := by
  induction ws with
  | nil => rfl
  | cons c cs ih =>
    have hc := hws c (by simp)
    simp only [List.cons_append, skipWs, List.dropWhile_cons, hc]
    exact ih (fun x hx => hws x (by simp [hx]))

theorem skipWs_cons_not (c : Char) (hc : isJsonWs c = false) (l : List Char) :
    skipWs (c :: l) = c :: l := by
  simp [skipWs, List.dropWhile_cons, hc]

theorem isJsonWs_of_digit (c : Char) (h : isDigitChar c = true) : isJsonWs c = false := by
  simp only [isDigitChar, Bool.and_eq_true, decide_eq_true_eq] at h
  simp only [isJsonWs, Bool.or_eq_false_iff, decide_eq_false_iff_not]
  omega

theorem nlIndent_ws (d : Nat) : ∀ c ∈ nlIndent d, isJsonWs c = true := by
  intro c hc
  rcases List.mem_cons.mp hc with rfl | h2
  · decide
  · rw [List.eq_of_mem_replicate h2]
    decide

theorem parseHexDig_hexDig (d : Nat) (hd : d < 16) : parseHexDig (hexDig d) = some d := by
  interval_cases d <;> decide

theorem parseVal_drop_ws (f : Nat) (ws l : List Char)
    (hws : ∀ c ∈ ws, isJsonWs c = true) :
    parseVal f (ws ++ l) = parseVal f l := by
  cases f with
  | zero => rfl
  | succ f => simp only [parseVal, skipWs_append_ws ws hws l]

/-- The decoded value of four hex digits printed from `n < 65536`. -/
theorem hex4_decode (n : Nat) (hn : n < 65536) :
    4096 * (n / 4096 % 16) + 256 * (n / 256 % 16) + 16 * (n / 16 % 16) + n % 16 = n := by
  omega

/-- The UTF-16 code units of one character, as `json.dumps` emits them. -/
def unitsOfChar (c : Char) : List Nat :=
  if c.toNat < 65536 then [c.toNat]
  else [55296 + (c.toNat - 65536) / 1024, 56320 + (c.toNat - 65536) % 1024]

/-- The UTF-16 code units of a string. -/
def unitsOf : List Char → List Nat
  | [] => []
  | c :: cs => unitsOfChar c ++ unitsOf cs

theorem hexQuad_hex4 (n : Nat) (hn : n < 65536) :
    hexQuad (hexDig (n / 4096 % 16)) (hexDig (n / 256 % 16)) (hexDig (n / 16 % 16))
      (hexDig (n % 16)) = some n := by
  simp only [hexQuad, parseHexDig_hexDig (n / 4096 % 16) (by omega),
    parseHexDig_hexDig (n / 256 % 16) (by omega),
    parseHexDig_hexDig (n / 16 % 16) (by omega),
    parseHexDig_hexDig (n % 16) (by omega)]
  rw [hex4_decode n hn]

theorem parseRawU_hex4 (n : Nat) (hn : n < 65536) (r2 : List Char) :
    parseRawU (hex4 n ++ r2) = (parseRawStr r2).map (fun p => (n :: p.1, p.2)) := by
  have hshape : hex4 n ++ r2 = hexDig (n / 4096 % 16) :: hexDig (n / 256 % 16) ::
      hexDig (n / 16 % 16) :: hexDig (n % 16) :: r2 := by
    simp [hex4]
  rw [hshape]
  simp only [parseRawU, hexQuad_hex4 n hn]

theorem parseRawStr_plain (c : Char) (l : List Char) (h1 : ¬c = '"') (h2 : ¬c = '\\')
    (h3 : ¬c.toNat < 32) :
    parseRawStr (c :: l) = (parseRawStr l).map (fun p => (c.toNat :: p.1, p.2)) := by
  simp only [parseRawStr, if_neg h1, if_neg h2, if_neg h3]

theorem parseRawStr_backslash (l : List Char) : parseRawStr ('\\' :: l) = parseRawEsc l := by
  simp only [parseRawStr, if_neg (by decide : ¬('\\' : Char) = '"'), if_pos rfl, if_true]

theorem parseRawEsc_code (e : Char) (l : List Char) (n : Nat) (he : ¬e = 'u')
    (hcode : escCode e = some n) :
    parseRawEsc (e :: l) = (parseRawStr l).map (fun p => (n :: p.1, p.2)) := by
  simp only [parseRawEsc, if_neg he, hcode]

theorem parseRawEsc_u (l : List Char) : parseRawEsc ('u' :: l) = parseRawU l := by
  simp only [parseRawEsc, if_pos rfl, if_true]

theorem combineUnits_scalar (v : Nat) (vs : List Nat) (h1 : ¬(55296 ≤ v ∧ v ≤ 56319))
    (h2 : ¬(56320 ≤ v ∧ v ≤ 57343)) :
    combineUnits (v :: vs) = (combineUnits vs).map (fun cs => Char.ofNat v :: cs) := by
  simp only [combineUnits, if_neg h1, if_neg h2]

theorem combineUnits_pair (v w : Nat) (vs : List Nat) (hv : 55296 ≤ v ∧ v ≤ 56319)
    (hw : 56320 ≤ w ∧ w ≤ 57343) :
    combineUnits (v :: w :: vs) = (combineUnits vs).map
      (fun cs => Char.ofNat (65536 + 1024 * (v - 55296) + (w - 56320)) :: cs) := by
  simp only [combineUnits, if_pos hv, combineLow, if_pos hw]

theorem escCode_vals :
    escCode '"' = some 34 ∧ escCode '\\' = some 92 ∧ escCode 'n' = some 10 ∧
    escCode 't' = some 9 ∧ escCode 'r' = some 13 ∧ escCode 'b' = some 8 ∧
    escCode 'f' = some 12 := by
  refine ⟨?_, ?_, ?_, ?_, ?_, ?_, ?_⟩ <;> decide

theorem parseRawStr_escape : ∀ (s rest : List Char),
    parseRawStr (escapeStr s ++ '"' :: rest) = some (unitsOf s, rest)
  | [], rest => by
    show parseRawStr ('"' :: rest) = some (unitsOf [], rest)
    simp only [parseRawStr, if_pos rfl, unitsOf, if_true]
  | c :: cs, rest => by
    have hv : c.toNat.isValidChar := c.valid
    have ih := parseRawStr_escape cs rest
    show parseRawStr (escapeChar c ++ escapeStr cs ++ '"' :: rest) =
      some (unitsOfChar c ++ unitsOf cs, rest)
    rw [escapeChar]
    split
    next hc =>
      subst hc
      simp only [List.cons_append, List.singleton_append, List.nil_append]
      rw [parseRawStr_backslash,
        parseRawEsc_code '"' _ 34 (by decide) escCode_vals.1, ih]
      rfl
    next hne1 =>
    split
    next hc =>
      subst hc
      simp only [List.cons_append, List.singleton_append, List.nil_append]
      rw [parseRawStr_backslash,
        parseRawEsc_code '\\' _ 92 (by decide) escCode_vals.2.1, ih]
      rfl
    next hne2 =>
    split
    next hc =>
      subst hc
      simp only [List.cons_append, List.singleton_append, List.nil_append]
      rw [parseRawStr_backslash,
        parseRawEsc_code 'n' _ 10 (by decide) escCode_vals.2.2.1, ih]
      rfl
    next hne3 =>
    split
    next hc =>
      subst hc
      simp only [List.cons_append, List.singleton_append, List.nil_append]
      rw [parseRawStr_backslash,
        parseRawEsc_code 't' _ 9 (by decide) escCode_vals.2.2.2.1, ih]
      rfl
    next hne4 =>
    split
    next hc =>
      subst hc
      simp only [List.cons_append, List.singleton_append, List.nil_append]
      rw [parseRawStr_backslash,
        parseRawEsc_code 'r' _ 13 (by decide) escCode_vals.2.2.2.2.1, ih]
      rfl
    next hne5 =>
    split
    next hc8 =>
      simp only [List.cons_append, List.singleton_append, List.nil_append]
      rw [parseRawStr_backslash,
        parseRawEsc_code 'b' _ 8 (by decide) escCode_vals.2.2.2.2.2.1, ih]
      have hu : unitsOfChar c = [8] := by
        simp [unitsOfChar, hc8]
      rw [hu]
      rfl
    next hne6 =>
    split
    next hc12 =>
      simp only [List.cons_append, List.singleton_append, List.nil_append]
      rw [parseRawStr_backslash,
        parseRawEsc_code 'f' _ 12 (by decide) escCode_vals.2.2.2.2.2.2, ih]
      have hu : unitsOfChar c = [12] := by
        simp [unitsOfChar, hc12]
      rw [hu]
      rfl
    next hne7 =>
    split
    next hrange =>
      split
      next hbmp =>
        simp only [List.cons_append, List.append_assoc]
        rw [parseRawStr_backslash, parseRawEsc_u, parseRawU_hex4 c.toNat hbmp, ih]
        have hu : unitsOfChar c = [c.toNat] := by
          simp [unitsOfChar, hbmp]
        rw [hu]
        rfl
      next hastral =>
        have hup : c.toNat < 1114112 := by
          rcases hv with h1 | h2
          · omega
          · omega
        have hhi : 55296 + (c.toNat - 65536) / 1024 < 65536 := by omega
        have hlo : 56320 + (c.toNat - 65536) % 1024 < 65536 := by omega
        have hshape : (('\\' :: 'u' :: hex4 (55296 + (c.toNat - 65536) / 1024)) ++
            ('\\' :: 'u' :: hex4 (56320 + (c.toNat - 65536) % 1024)) ++
              escapeStr cs ++ '"' :: rest) =
            '\\' :: 'u' :: (hex4 (55296 + (c.toNat - 65536) / 1024) ++
              ('\\' :: 'u' :: (hex4 (56320 + (c.toNat - 65536) % 1024) ++
                (escapeStr cs ++ '"' :: rest)))) := by
          simp [List.append_assoc]
        rw [hshape, parseRawStr_backslash, parseRawEsc_u, parseRawU_hex4 _ hhi,
          parseRawStr_backslash, parseRawEsc_u, parseRawU_hex4 _ hlo, ih]
        have hu : unitsOfChar c =
            [55296 + (c.toNat - 65536) / 1024, 56320 + (c.toNat - 65536) % 1024] := by
          simp only [unitsOfChar, if_neg hastral]
        rw [hu]
        rfl
    next hplain =>
      have h32 : ¬c.toNat < 32 := by
        simp only [Bool.or_eq_true, decide_eq_true_eq, not_or] at hplain
        omega
      have hbmp : c.toNat < 65536 := by
        simp only [Bool.or_eq_true, decide_eq_true_eq, not_or] at hplain
        omega
      simp only [List.cons_append, List.singleton_append, List.nil_append]
      rw [parseRawStr_plain c _ hne1 hne2 h32, ih]
      have hu : unitsOfChar c = [c.toNat] := by
        simp [unitsOfChar, hbmp]
      rw [hu]
      rfl

theorem combineUnits_unitsOf : ∀ (s : List Char), combineUnits (unitsOf s) = some s
  | [] => rfl
  | c :: cs => by
    have hv : c.toNat.isValidChar := c.valid
    have ih := combineUnits_unitsOf cs
    show combineUnits (unitsOfChar c ++ unitsOf cs) = some (c :: cs)
    rw [unitsOfChar]
    split
    next hbmp =>
      have hnothi : ¬(55296 ≤ c.toNat ∧ c.toNat ≤ 56319) := by
        rcases hv with h1 | h2
        · omega
        · omega
      have hnotlo : ¬(56320 ≤ c.toNat ∧ c.toNat ≤ 57343) := by
        rcases hv with h1 | h2
        · omega
        · omega
      rw [List.cons_append, List.nil_append, combineUnits_scalar _ _ hnothi hnotlo, ih,
        Char.ofNat_toNat]
      rfl
    next hastral =>
      have hup : c.toNat < 1114112 := by
        rcases hv with h1 | h2
        · omega
        · omega
      rw [List.cons_append, List.cons_append, List.nil_append,
        combineUnits_pair _ _ _ (by omega) (by omega), ih]
      have hback : 65536 + 1024 * (55296 + (c.toNat - 65536) / 1024 - 55296) +
          (56320 + (c.toNat - 65536) % 1024 - 56320) = c.toNat := by omega
      rw [hback, Char.ofNat_toNat]
      rfl

theorem parseStrBody_escape (s rest : List Char) :
    parseStrBody (escapeStr s ++ '"' :: rest) = some (s, rest) := by
  simp only [parseStrBody, parseRawStr_escape s rest, combineUnits_unitsOf s]


/-! ### Round-trip lemmas: numbers, heads and whitespace shapes -/

theorem ne_of_digit (c x : Char) (hc : isDigitChar c = true) (hx : isDigitChar x = false) :
    ¬c = x := by
  intro h
  subst h
  rw [hc] at hx
  exact absurd hx (by simp)

theorem afterLit_self (lit rest : List Char) : afterLit lit (lit ++ rest) = some rest := by
  have hpre : lit.isPrefixOf (lit ++ rest) = true :=
    List.isPrefixOf_iff_prefix.mpr ⟨rest, rfl⟩
  simp only [afterLit, hpre, if_true, List.drop_left]

theorem numStop_cons (c : Char) (t : List Char) (h1 : isDigitChar c = false)
    (h2 : ¬c = '.') (h3 : ¬c = 'e') (h4 : ¬c = 'E') : numStop (c :: t) = true := by
  simp [numStop, h1, h2, h3, h4]

theorem char_ne_of_toNat_ne (a b : Char) (h : a.toNat ≠ b.toNat) : ¬a = b := by
  intro heq
  exact h (congrArg Char.toNat heq)

theorem numStop_ws_cons (ws : List Char) (hws : ∀ c ∈ ws, isJsonWs c = true)
    (c : Char) (t : List Char) (h1 : isDigitChar c = false) (h2 : ¬c = '.')
    (h3 : ¬c = 'e') (h4 : ¬c = 'E') : numStop (ws ++ c :: t) = true := by
  cases ws with
  | nil => exact numStop_cons c t h1 h2 h3 h4
  | cons w ws' =>
    have hw := hws w (by simp)
    simp only [isJsonWs, Bool.or_eq_true, decide_eq_true_eq] at hw
    refine numStop_cons w _ ?_ ?_ ?_ ?_
    · simp only [isDigitChar, Bool.and_eq_false_iff, decide_eq_false_iff_not]
      omega
    · exact char_ne_of_toNat_ne _ _ (by rw [show ('.' : Char).toNat = 46 from rfl]; omega)
    · exact char_ne_of_toNat_ne _ _ (by rw [show ('e' : Char).toNat = 101 from rfl]; omega)
    · exact char_ne_of_toNat_ne _ _ (by rw [show ('E' : Char).toNat = 69 from rfl]; omega)

theorem takeWhile_digits_stop (ds rest : List Char)
    (hds : ∀ c ∈ ds, isDigitChar c = true) (hrest : numStop rest = true) :
    (ds ++ rest).takeWhile isDigitChar = ds := by
  induction ds with
  | nil =>
    cases rest with
    | nil => rfl
    | cons c t =>
      simp only [numStop, Bool.and_eq_true, Bool.not_eq_true'] at hrest
      simp [List.takeWhile_cons, hrest.1.1.1]
  | cons c ds' ih =>
    have hc := hds c (by simp)
    simp only [List.cons_append, List.takeWhile_cons, hc]
    simpa using ih (fun x hx => hds x (by simp [hx]))

theorem natDigitsAux_head_ne_zero : ∀ (fuel n : Nat), n < fuel → 0 < n →
    ∀ (d0 : Char) (ds' : List Char), natDigitsAux fuel n = d0 :: ds' → ¬d0 = '0' := by
  intro fuel
  induction fuel with
  | zero => omega
  | succ f ih =>
    intro n hn hpos d0 ds' heq
    rw [natDigitsAux] at heq
    split at heq
    next h =>
      have hd0 : d0 = Char.ofNat (48 + n) := by
        simpa using congrArg (fun l => l.headD '0') heq.symm
      subst hd0
      interval_cases n <;> decide
    next h =>
      obtain ⟨e0, t0, haux⟩ : ∃ e0 t0, natDigitsAux f (n / 10) = e0 :: t0 := by
        cases haux2 : natDigitsAux f (n / 10) with
        | nil => exact absurd haux2 (natDigitsAux_ne_nil f (n / 10) (by omega))
        | cons e0 t0 => exact ⟨e0, t0, rfl⟩
      rw [haux, List.cons_append] at heq
      have hd0 : d0 = e0 := by
        simpa using congrArg (fun l => l.headD '0') heq.symm
      subst hd0
      exact ih (n / 10) (by omega) (by omega) d0 t0 haux

theorem natDigits_small (m : Nat) (hm : m < 10) : natDigits m = [Char.ofNat (48 + m)] := by
  rw [natDigits, natDigitsAux, if_pos hm]

theorem parseNumFrom_natDigits (m : Nat) (rest : List Char) (hrest : numStop rest = true) :
    parseNumFrom (natDigits m ++ rest) = some (m, rest) := by
  obtain ⟨d0, ds', hcons⟩ : ∃ d0 ds', natDigits m = d0 :: ds' := by
    cases hx : natDigits m with
    | nil => exact absurd hx (natDigits_ne_nil m)
    | cons d0 ds' => exact ⟨d0, ds', rfl⟩
  have htake : (natDigits m ++ rest).takeWhile isDigitChar = natDigits m :=
    takeWhile_digits_stop _ rest (natDigits_all_digit m) hrest
  have hcond : (d0 == '0' && !ds'.isEmpty) = false := by
    by_cases hm : m < 10
    · have := natDigits_small m hm
      rw [hcons] at this
      have hds' : ds' = [] := by
        simpa using congrArg List.tail this
      rw [hds']
      simp
    · have hne := natDigitsAux_head_ne_zero (m + 1) m (by omega) (by omega) d0 ds' hcons
      simp [hne]
  have hlen : (d0 :: ds').length = (natDigits m).length := by rw [hcons]
  have hdrop : (natDigits m ++ rest).drop (d0 :: ds').length = rest := by
    rw [hlen, List.drop_left]
  have htr := htake.trans hcons
  have hval : digitsVal (d0 :: ds') = m := by
    rw [← hcons, digitsVal_natDigits]
  cases rest with
  | nil =>
    simp only [parseNumFrom, htr, hcond, Bool.false_eq_true, if_false, hdrop, hval]
  | cons c t =>
    simp only [numStop, Bool.and_eq_true, Bool.not_eq_true'] at hrest
    have h2 : ¬c = '.' := by
      intro h
      rw [h] at hrest
      simpa using hrest.1.1.2
    have h3 : ¬c = 'e' := by
      intro h
      rw [h] at hrest
      simpa using hrest.1.2
    have h4 : ¬c = 'E' := by
      intro h
      rw [h] at hrest
      simpa using hrest.2
    simp only [parseNumFrom, htr, hcond, Bool.false_eq_true, if_false, hdrop, hval,
      if_neg (by simp [h2, h3, h4] : ¬(c = '.' ∨ c = 'e' ∨ c = 'E'))]

/-- Every printed JSON value starts with a significant character: not
whitespace and none of the container closers. -/
theorem dumpVal_shape (d : Nat) (j : Json) : ∃ c t, dumpVal d j = c :: t ∧
    isJsonWs c = false ∧ ¬c = ']' ∧ ¬c = '}' := by
  cases j with
  | null => refine ⟨'n', _, rfl, ?_, ?_, ?_⟩ <;> decide
  | bool b =>
    cases b with
    | true => refine ⟨'t', _, rfl, ?_, ?_, ?_⟩ <;> decide
    | false => refine ⟨'f', _, rfl, ?_, ?_, ?_⟩ <;> decide
  | num n =>
    show ∃ c t, intDigits n = c :: t ∧ _
    rw [intDigits]
    split
    next hneg => refine ⟨'-', _, rfl, ?_, ?_, ?_⟩ <;> decide
    next hpos =>
      obtain ⟨d0, ds', hcons⟩ : ∃ d0 ds', natDigits n.toNat = d0 :: ds' := by
        cases hx : natDigits n.toNat with
        | nil => exact absurd hx (natDigits_ne_nil _)
        | cons d0 ds' => exact ⟨d0, ds', rfl⟩
      have hd0 : isDigitChar d0 = true := by
        refine natDigits_all_digit n.toNat d0 ?_
        rw [hcons]
        simp
      exact ⟨d0, ds', hcons, isJsonWs_of_digit d0 hd0,
        ne_of_digit d0 ']' hd0 (by decide), ne_of_digit d0 '}' hd0 (by decide)⟩
  | str s => refine ⟨'"', _, rfl, ?_, ?_, ?_⟩ <;> decide
  | arr l =>
    show ∃ c t, (if l.isEmpty then _ else _) = c :: t ∧ _
    split
    next => refine ⟨'[', _, rfl, ?_, ?_, ?_⟩ <;> decide
    next =>
      refine ⟨'[', dumpItems (d + 1) l ++ nlIndent d ++ [']'],
        by simp [List.cons_append, List.append_assoc], ?_, ?_, ?_⟩ <;> decide
  | obj ms =>
    show ∃ c t, (if ms.isEmpty then _ else _) = c :: t ∧ _
    split
    next => refine ⟨'{', _, rfl, ?_, ?_, ?_⟩ <;> decide
    next =>
      refine ⟨'{', dumpMembers (d + 1) ms ++ nlIndent d ++ ['}'],
        by simp [List.cons_append, List.append_assoc], ?_, ?_, ?_⟩ <;> decide

theorem skipWs_dumpVal_append (d : Nat) (j : Json) (z : List Char) :
    skipWs (dumpVal d j ++ z) = dumpVal d j ++ z := by
  obtain ⟨c, t, heq, hnws, _, _⟩ := dumpVal_shape d j
  rw [heq, List.cons_append, skipWs_cons_not c hnws]

theorem jsonFuel_pos (j : Json) : 0 < jsonFuel j := by
  cases j <;> simp [jsonFuel]

theorem skipWs_dumpItems_cons (d : Nat) (x : Json) (xs : List Json) (z : List Char) :
    ∃ c t, skipWs (dumpItems d (x :: xs) ++ z) = c :: t ∧ ¬c = ']' := by
  obtain ⟨c, t2, heq, hnws, hbr, _⟩ := dumpVal_shape d x
  cases xs with
  | nil =>
    have heq2 : skipWs (dumpItems d [x] ++ z) = c :: (t2 ++ z) := by
      rw [show dumpItems d [x] = nlIndent d ++ dumpVal d x from rfl, List.append_assoc,
        skipWs_append_ws _ (nlIndent_ws d), heq, List.cons_append, skipWs_cons_not c hnws]
    exact ⟨c, t2 ++ z, heq2, hbr⟩
  | cons y ys =>
    have heq2 : skipWs (dumpItems d (x :: y :: ys) ++ z) =
        c :: (t2 ++ ((',' :: dumpItems d (y :: ys)) ++ z)) := by
      rw [show dumpItems d (x :: y :: ys) =
          (nlIndent d ++ dumpVal d x) ++ (',' :: dumpItems d (y :: ys)) from rfl,
        List.append_assoc, List.append_assoc, skipWs_append_ws _ (nlIndent_ws d), heq,
        List.cons_append, skipWs_cons_not c hnws]
    exact ⟨c, t2 ++ ((',' :: dumpItems d (y :: ys)) ++ z), heq2, hbr⟩


theorem stringMk_data (s : String) : String.mk s.data = s := rfl

theorem dumpMembers_shape (d : Nat) (k : String) (v : Json) :
    ∀ (ms : List (String × Json)), ∃ w,
      dumpMembers d ((k, v) :: ms) = (nlIndent d ++ dumpStr k) ++ w
  | [] => ⟨':' :: ' ' :: dumpVal d v, rfl⟩
  | kv :: kvs => ⟨(':' :: ' ' :: dumpVal d v) ++ (',' :: dumpMembers d (kv :: kvs)),
      List.append_assoc _ _ _⟩

theorem skipWs_dumpMembers_cons (d : Nat) (k : String) (v : Json)
    (ms : List (String × Json)) (z : List Char) :
    ∃ t, skipWs (dumpMembers d ((k, v) :: ms) ++ z) = '"' :: t := by
  obtain ⟨w, hw⟩ := dumpMembers_shape d k v ms
  refine ⟨escapeStr k.data ++ ('"' :: (w ++ z)), ?_⟩
  rw [hw]
  have h2 : ((nlIndent d ++ dumpStr k) ++ w) ++ z =
      nlIndent d ++ ('"' :: (escapeStr k.data ++ ('"' :: (w ++ z)))) := by
    show ((nlIndent d ++ (('"' :: escapeStr k.data) ++ ['"'])) ++ w) ++ z = _
    simp [List.append_assoc]
  rw [h2, skipWs_append_ws _ (nlIndent_ws d), skipWs_cons_not '"' (by decide)]


mutual

/-- Parsing the printed form of a value, followed by a continuation on which a
numeral correctly stops, returns exactly that value. -/
theorem parse_dumpVal : ∀ (j : Json) (d f : Nat) (rest : List Char),
    jsonFuel j ≤ f → numStop rest = true →
    parseVal f (dumpVal d j ++ rest) = some (j, rest)
  | .null, d, f, rest, hf, _ => by
    obtain ⟨f2, rfl⟩ : ∃ f2, f = f2 + 1 := ⟨f - 1, by
      have h1 : 1 ≤ f := hf
      omega⟩
    rw [show dumpVal d Json.null ++ rest = 'n' :: (['u', 'l', 'l'] ++ rest) from rfl]
    simp only [parseVal, skipWs_cons_not 'n' (by decide), if_true, afterLit_self]
  | .bool true, d, f, rest, hf, _ => by
    obtain ⟨f2, rfl⟩ : ∃ f2, f = f2 + 1 := ⟨f - 1, by
      have h1 : 1 ≤ f := hf
      omega⟩
    rw [show dumpVal d (Json.bool true) ++ rest = 't' :: (['r', 'u', 'e'] ++ rest) from rfl]
    simp only [parseVal, skipWs_cons_not 't' (by decide),
      if_neg (show ¬('t' : Char) = 'n' from by decide), if_true, afterLit_self]
  | .bool false, d, f, rest, hf, _ => by
    obtain ⟨f2, rfl⟩ : ∃ f2, f = f2 + 1 := ⟨f - 1, by
      have h1 : 1 ≤ f := hf
      omega⟩
    rw [show dumpVal d (Json.bool false) ++ rest =
      'f' :: (['a', 'l', 's', 'e'] ++ rest) from rfl]
    simp only [parseVal, skipWs_cons_not 'f' (by decide),
      if_neg (show ¬('f' : Char) = 'n' from by decide),
      if_neg (show ¬('f' : Char) = 't' from by decide), if_true, afterLit_self]
  | .num n, d, f, rest, hf, hrest => by
    obtain ⟨f2, rfl⟩ : ∃ f2, f = f2 + 1 := ⟨f - 1, by
      have h1 : 1 ≤ f := hf
      omega⟩
    by_cases hneg : n < 0
    · have hsh : dumpVal d (Json.num n) ++ rest = '-' :: (natDigits n.natAbs ++ rest) := by
        show intDigits n ++ rest = _
        rw [intDigits, if_pos hneg, List.cons_append]
      rw [hsh]
      simp only [parseVal, skipWs_cons_not '-' (by decide),
        if_neg (show ¬('-' : Char) = 'n' from by decide),
        if_neg (show ¬('-' : Char) = 't' from by decide),
        if_neg (show ¬('-' : Char) = 'f' from by decide),
        if_neg (show ¬('-' : Char) = '"' from by decide),
        if_neg (show ¬('-' : Char) = '[' from by decide),
        if_neg (show ¬('-' : Char) = '{' from by decide),
        if_true,
        parseNumFrom_natDigits n.natAbs rest hrest]
      rw [show (-((n.natAbs : Nat) : Int)) = n from by omega]
    · obtain ⟨d0, ds2, hcons⟩ : ∃ d0 ds2, natDigits n.toNat = d0 :: ds2 := by
        cases hx : natDigits n.toNat with
        | nil => exact absurd hx (natDigits_ne_nil _)
        | cons a b => exact ⟨a, b, rfl⟩
      have hd0 : isDigitChar d0 = true := by
        refine natDigits_all_digit n.toNat d0 ?_
        rw [hcons]
        simp
      have hsh : dumpVal d (Json.num n) ++ rest = d0 :: (ds2 ++ rest) := by
        show intDigits n ++ rest = _
        rw [intDigits, if_neg hneg, hcons, List.cons_append]
      rw [hsh]
      simp only [parseVal, skipWs_cons_not d0 (isJsonWs_of_digit d0 hd0),
        if_neg (ne_of_digit d0 'n' hd0 (by decide)),
        if_neg (ne_of_digit d0 't' hd0 (by decide)),
        if_neg (ne_of_digit d0 'f' hd0 (by decide)),
        if_neg (ne_of_digit d0 '"' hd0 (by decide)),
        if_neg (ne_of_digit d0 '[' hd0 (by decide)),
        if_neg (ne_of_digit d0 '{' hd0 (by decide)),
        if_neg (ne_of_digit d0 '-' hd0 (by decide))]
      rw [← List.cons_append, ← hcons, parseNumFrom_natDigits n.toNat rest hrest]
      simp only [Int.toNat_of_nonneg (show (0 : Int) ≤ n from by omega)]
  | .str s, d, f, rest, hf, _ => by
    obtain ⟨f2, rfl⟩ : ∃ f2, f = f2 + 1 := ⟨f - 1, by
      have h1 : 1 ≤ f := hf
      omega⟩
    have hsh : dumpVal d (Json.str s) ++ rest = '"' :: (escapeStr s.data ++ ('"' :: rest)) := by
      show (('"' :: escapeStr s.data) ++ ['"']) ++ rest = _
      simp [List.append_assoc]
    rw [hsh]
    simp only [parseVal, skipWs_cons_not '"' (by decide),
      if_neg (show ¬('"' : Char) = 'n' from by decide),
      if_neg (show ¬('"' : Char) = 't' from by decide),
      if_neg (show ¬('"' : Char) = 'f' from by decide),
      if_true,
      parseStrBody_escape s.data rest, Option.map_some', stringMk_data]
  | .arr [], d, f, rest, hf, _ => by
    obtain ⟨f2, rfl⟩ : ∃ f2, f = f2 + 1 := ⟨f - 1, by
      have h1 : 1 ≤ f := hf
      omega⟩
    rw [show dumpVal d (Json.arr []) ++ rest = '[' :: (']' :: rest) from rfl]
    simp only [parseVal, skipWs_cons_not '[' (by decide), skipWs_cons_not ']' (by decide),
      if_neg (show ¬('[' : Char) = 'n' from by decide),
      if_neg (show ¬('[' : Char) = 't' from by decide),
      if_neg (show ¬('[' : Char) = 'f' from by decide),
      if_neg (show ¬('[' : Char) = '"' from by decide), if_true]
  | .arr (x :: xs), d, f, rest, hf, hrest => by
    obtain ⟨f2, rfl⟩ : ∃ f2, f = f2 + 1 := ⟨f - 1, by
      have h1 : jsonFuel (Json.arr (x :: xs)) = 1 + jsonFuelItems (x :: xs) := rfl
      omega⟩
    have hfi : jsonFuelItems (x :: xs) ≤ f2 := by
      have h1 : jsonFuel (Json.arr (x :: xs)) = 1 + jsonFuelItems (x :: xs) := rfl
      omega
    have hsh : dumpVal d (Json.arr (x :: xs)) ++ rest =
        '[' :: (dumpItems (d + 1) (x :: xs) ++ (nlIndent d ++ ']' :: rest)) := by
      show ((('[' :: dumpItems (d + 1) (x :: xs)) ++ nlIndent d) ++ [']']) ++ rest = _
      simp [List.append_assoc]
    obtain ⟨c1, rr, hsk, hne⟩ := skipWs_dumpItems_cons (d + 1) x xs (nlIndent d ++ ']' :: rest)
    have hrec := parse_dumpItems (x :: xs) (d + 1) f2 (nlIndent d) rest (by simp) hfi
      (nlIndent_ws d)
    rw [hsh]
    simp only [parseVal, skipWs_cons_not '[' (by decide),
      if_neg (show ¬('[' : Char) = 'n' from by decide),
      if_neg (show ¬('[' : Char) = 't' from by decide),
      if_neg (show ¬('[' : Char) = 'f' from by decide),
      if_neg (show ¬('[' : Char) = '"' from by decide),
      if_true,
      hsk, if_neg hne, hrec, Option.map_some']
  | .obj [], d, f, rest, hf, _ => by
    obtain ⟨f2, rfl⟩ : ∃ f2, f = f2 + 1 := ⟨f - 1, by
      have h1 : 1 ≤ f := hf
      omega⟩
    rw [show dumpVal d (Json.obj []) ++ rest = '{' :: ('}' :: rest) from rfl]
    simp only [parseVal, skipWs_cons_not '{' (by decide), skipWs_cons_not '}' (by decide),
      if_neg (show ¬('{' : Char) = 'n' from by decide),
      if_neg (show ¬('{' : Char) = 't' from by decide),
      if_neg (show ¬('{' : Char) = 'f' from by decide),
      if_neg (show ¬('{' : Char) = '"' from by decide),
      if_neg (show ¬('{' : Char) = '[' from by decide), if_true]
  | .obj ((k, v) :: ms), d, f, rest, hf, hrest => by
    obtain ⟨f2, rfl⟩ : ∃ f2, f = f2 + 1 := ⟨f - 1, by
      have h1 : jsonFuel (Json.obj ((k, v) :: ms)) = 1 + jsonFuelMembers ((k, v) :: ms) := rfl
      omega⟩
    have hfm : jsonFuelMembers ((k, v) :: ms) ≤ f2 := by
      have h1 : jsonFuel (Json.obj ((k, v) :: ms)) = 1 + jsonFuelMembers ((k, v) :: ms) := rfl
      omega
    have hsh : dumpVal d (Json.obj ((k, v) :: ms)) ++ rest =
        '{' :: (dumpMembers (d + 1) ((k, v) :: ms) ++ (nlIndent d ++ '}' :: rest)) := by
      show ((('{' :: dumpMembers (d + 1) ((k, v) :: ms)) ++ nlIndent d) ++ ['}']) ++ rest = _
      simp [List.append_assoc]
    obtain ⟨t1, hsk⟩ := skipWs_dumpMembers_cons (d + 1) k v ms (nlIndent d ++ '}' :: rest)
    have hrec := parse_dumpMembers ((k, v) :: ms) (d + 1) f2 (nlIndent d) rest (by simp) hfm
      (nlIndent_ws d)
    rw [hsh]
    simp only [parseVal, skipWs_cons_not '{' (by decide),
      if_neg (show ¬('{' : Char) = 'n' from by decide),
      if_neg (show ¬('{' : Char) = 't' from by decide),
      if_neg (show ¬('{' : Char) = 'f' from by decide),
      if_neg (show ¬('{' : Char) = '"' from by decide),
      if_neg (show ¬('{' : Char) = '[' from by decide),
      if_true,
      hsk, if_neg (show ¬('"' : Char) = '}' from by decide), hrec, Option.map_some']

/-- Parsing the printed items of a nonempty array, followed by whitespace and
the closing bracket, returns exactly those items. -/
theorem parse_dumpItems : ∀ (l : List Json) (d f : Nat) (ws rest : List Char),
    l ≠ [] → jsonFuelItems l ≤ f → (∀ c ∈ ws, isJsonWs c = true) →
    parseItems f (dumpItems d l ++ (ws ++ ']' :: rest)) = some (l, rest)
  | [], _, _, _, _, hne, _, _ => absurd rfl hne
  | [x], d, f, ws, rest, _, hf, hws => by
    obtain ⟨f2, rfl⟩ : ∃ f2, f = f2 + 1 := ⟨f - 1, by
      have h1 : jsonFuelItems [x] = 1 + max (jsonFuel x) 0 := rfl
      omega⟩
    have hfx : jsonFuel x ≤ f2 := by
      have h1 : jsonFuelItems [x] = 1 + max (jsonFuel x) 0 := rfl
      omega
    have hns : numStop (ws ++ ']' :: rest) = true :=
      numStop_ws_cons ws hws ']' rest (by decide) (by decide) (by decide) (by decide)
    have hL : dumpItems d [x] ++ (ws ++ ']' :: rest) =
        nlIndent d ++ (dumpVal d x ++ (ws ++ ']' :: rest)) := by
      show (nlIndent d ++ dumpVal d x) ++ (ws ++ ']' :: rest) = _
      rw [List.append_assoc]
    have hpw : parseVal f2 (nlIndent d ++ (dumpVal d x ++ (ws ++ ']' :: rest))) =
        some (x, ws ++ ']' :: rest) := by
      rw [parseVal_drop_ws f2 _ _ (nlIndent_ws d),
        parse_dumpVal x d f2 (ws ++ ']' :: rest) hfx hns]
    rw [hL]
    simp only [parseItems, hpw, skipWs_append_ws ws hws, skipWs_cons_not ']' (by decide),
      if_neg (show ¬(']' : Char) = ',' from by decide),
      if_true]
  | x :: y :: ys, d, f, ws, rest, _, hf, hws => by
    obtain ⟨f2, rfl⟩ : ∃ f2, f = f2 + 1 := ⟨f - 1, by
      have h1 : jsonFuelItems (x :: y :: ys) =
        1 + max (jsonFuel x) (jsonFuelItems (y :: ys)) := rfl
      omega⟩
    have hfx : jsonFuel x ≤ f2 := by
      have h1 : jsonFuelItems (x :: y :: ys) =
        1 + max (jsonFuel x) (jsonFuelItems (y :: ys)) := rfl
      omega
    have hfi : jsonFuelItems (y :: ys) ≤ f2 := by
      have h1 : jsonFuelItems (x :: y :: ys) =
        1 + max (jsonFuel x) (jsonFuelItems (y :: ys)) := rfl
      omega
    have hL : dumpItems d (x :: y :: ys) ++ (ws ++ ']' :: rest) =
        nlIndent d ++ (dumpVal d x ++
          (',' :: (dumpItems d (y :: ys) ++ (ws ++ ']' :: rest)))) := by
      show ((nlIndent d ++ dumpVal d x) ++ (',' :: dumpItems d (y :: ys))) ++
        (ws ++ ']' :: rest) = _
      simp [List.append_assoc]
    have hns : numStop (',' :: (dumpItems d (y :: ys) ++ (ws ++ ']' :: rest))) = true :=
      numStop_cons ',' _ (by decide) (by decide) (by decide) (by decide)
    have hpw : parseVal f2 (nlIndent d ++ (dumpVal d x ++
        (',' :: (dumpItems d (y :: ys) ++ (ws ++ ']' :: rest))))) =
        some (x, ',' :: (dumpItems d (y :: ys) ++ (ws ++ ']' :: rest))) := by
      rw [parseVal_drop_ws f2 _ _ (nlIndent_ws d),
        parse_dumpVal x d f2 _ hfx hns]
    have hrec := parse_dumpItems (y :: ys) d f2 ws rest (by simp) hfi hws
    rw [hL]
    simp only [parseItems, hpw, skipWs_cons_not ',' (by decide),
      if_true, hrec]

/-- Parsing the printed members of a nonempty object, followed by whitespace
and the closing brace, returns exactly those members. -/
theorem parse_dumpMembers : ∀ (ms : List (String × Json)) (d f : Nat) (ws rest : List Char),
    ms ≠ [] → jsonFuelMembers ms ≤ f → (∀ c ∈ ws, isJsonWs c = true) →
    parseMembers f (dumpMembers d ms ++ (ws ++ '}' :: rest)) = some (ms, rest)
  | [], _, _, _, _, hne, _, _ => absurd rfl hne
  | [(k, v)], d, f, ws, rest, _, hf, hws => by
    obtain ⟨f2, rfl⟩ : ∃ f2, f = f2 + 1 := ⟨f - 1, by
      have h1 : jsonFuelMembers [(k, v)] = 1 + max (jsonFuel v) 0 := rfl
      omega⟩
    have hfv : jsonFuel v ≤ f2 := by
      have h1 : jsonFuelMembers [(k, v)] = 1 + max (jsonFuel v) 0 := rfl
      omega
    have hns : numStop (ws ++ '}' :: rest) = true :=
      numStop_ws_cons ws hws '}' rest (by decide) (by decide) (by decide) (by decide)
    have hL : dumpMembers d [(k, v)] ++ (ws ++ '}' :: rest) =
        nlIndent d ++ ('"' :: (escapeStr k.data ++ ('"' :: (':' :: (' ' ::
          (dumpVal d v ++ (ws ++ '}' :: rest))))))) := by
      show ((nlIndent d ++ (('"' :: escapeStr k.data) ++ ['"'])) ++
        (':' :: ' ' :: dumpVal d v)) ++ (ws ++ '}' :: rest) = _
      simp [List.append_assoc]
    have hpv : parseVal f2 (' ' :: (dumpVal d v ++ (ws ++ '}' :: rest))) =
        some (v, ws ++ '}' :: rest) := by
      rw [show (' ' :: (dumpVal d v ++ (ws ++ '}' :: rest))) =
          [' '] ++ (dumpVal d v ++ (ws ++ '}' :: rest)) from rfl,
        parseVal_drop_ws f2 _ _ (by decide),
        parse_dumpVal v d f2 (ws ++ '}' :: rest) hfv hns]
    rw [hL]
    simp only [parseMembers, skipWs_append_ws _ (nlIndent_ws d),
      skipWs_cons_not '"' (by decide), if_true,
      parseStrBody_escape k.data, skipWs_cons_not ':' (by decide),
      if_true, hpv,
      skipWs_append_ws ws hws, skipWs_cons_not '}' (by decide),
      if_neg (show ¬('}' : Char) = ',' from by decide),
      if_true, stringMk_data]
  | (k, v) :: kv :: kvs, d, f, ws, rest, _, hf, hws => by
    obtain ⟨f2, rfl⟩ : ∃ f2, f = f2 + 1 := ⟨f - 1, by
      have h1 : jsonFuelMembers ((k, v) :: kv :: kvs) =
        1 + max (jsonFuel v) (jsonFuelMembers (kv :: kvs)) := rfl
      omega⟩
    have hfv : jsonFuel v ≤ f2 := by
      have h1 : jsonFuelMembers ((k, v) :: kv :: kvs) =
        1 + max (jsonFuel v) (jsonFuelMembers (kv :: kvs)) := rfl
      omega
    have hfm : jsonFuelMembers (kv :: kvs) ≤ f2 := by
      have h1 : jsonFuelMembers ((k, v) :: kv :: kvs) =
        1 + max (jsonFuel v) (jsonFuelMembers (kv :: kvs)) := rfl
      omega
    have hL : dumpMembers d ((k, v) :: kv :: kvs) ++ (ws ++ '}' :: rest) =
        nlIndent d ++ ('"' :: (escapeStr k.data ++ ('"' :: (':' :: (' ' ::
          (dumpVal d v ++ (',' :: (dumpMembers d (kv :: kvs) ++
            (ws ++ '}' :: rest))))))))) := by
      show (((nlIndent d ++ (('"' :: escapeStr k.data) ++ ['"'])) ++
        (':' :: ' ' :: dumpVal d v)) ++ (',' :: dumpMembers d (kv :: kvs))) ++
          (ws ++ '}' :: rest) = _
      simp [List.append_assoc]
    have hns : numStop (',' :: (dumpMembers d (kv :: kvs) ++ (ws ++ '}' :: rest))) = true :=
      numStop_cons ',' _ (by decide) (by decide) (by decide) (by decide)
    have hpv : parseVal f2 (' ' :: (dumpVal d v ++
        (',' :: (dumpMembers d (kv :: kvs) ++ (ws ++ '}' :: rest))))) =
        some (v, ',' :: (dumpMembers d (kv :: kvs) ++ (ws ++ '}' :: rest))) := by
      rw [show (' ' :: (dumpVal d v ++ (',' :: (dumpMembers d (kv :: kvs) ++
          (ws ++ '}' :: rest))))) =
          [' '] ++ (dumpVal d v ++ (',' :: (dumpMembers d (kv :: kvs) ++
            (ws ++ '}' :: rest)))) from rfl,
        parseVal_drop_ws f2 _ _ (by decide),
        parse_dumpVal v d f2 _ hfv hns]
    have hrec := parse_dumpMembers (kv :: kvs) d f2 ws rest (by simp) hfm hws
    rw [hL]
    simp only [parseMembers, skipWs_append_ws _ (nlIndent_ws d),
      skipWs_cons_not '"' (by decide), if_true,
      parseStrBody_escape k.data, skipWs_cons_not ':' (by decide),
      if_true, hpv,
      skipWs_cons_not ',' (by decide), if_true,
      hrec, stringMk_data]

end


mutual

/-- The fuel `loads` provides (input length plus one) always suffices: the
nesting bound of a value is at most the length of its printed form. -/
theorem jsonFuel_le_dump : ∀ (j : Json) (d : Nat), jsonFuel j ≤ (dumpVal d j).length
  | .null, d => by
    rw [show dumpVal d Json.null = "null".data from rfl]
    decide
  | .bool true, d => by
    rw [show dumpVal d (Json.bool true) = "true".data from rfl]
    decide
  | .bool false, d => by
    rw [show dumpVal d (Json.bool false) = "false".data from rfl]
    decide
  | .num n, d => by
    rw [show dumpVal d (Json.num n) = intDigits n from rfl,
      show jsonFuel (Json.num n) = 1 from rfl, intDigits]
    split
    next =>
      simp only [List.length_cons]
      omega
    next => exact List.length_pos.mpr (natDigits_ne_nil _)
  | .str s, d => by
    rw [show dumpVal d (Json.str s) = ('"' :: escapeStr s.data) ++ ['"'] from rfl,
      show jsonFuel (Json.str s) = 1 from rfl]
    simp only [List.length_append, List.length_cons]
    omega
  | .arr [], d => by
    rw [show dumpVal d (Json.arr []) = ['[', ']'] from rfl,
      show jsonFuel (Json.arr []) = 1 from rfl]
    decide
  | .arr (x :: xs), d => by
    rw [show jsonFuel (Json.arr (x :: xs)) = 1 + jsonFuelItems (x :: xs) from rfl,
      show dumpVal d (Json.arr (x :: xs)) =
        (('[' :: dumpItems (d + 1) (x :: xs)) ++ nlIndent d) ++ [']'] from rfl]
    have hi := jsonFuelItems_le_dump (x :: xs) (d + 1)
    simp only [List.length_append, List.length_cons]
    omega
  | .obj [], d => by
    rw [show dumpVal d (Json.obj []) = ['{', '}'] from rfl,
      show jsonFuel (Json.obj []) = 1 from rfl]
    decide
  | .obj ((k, v) :: ms), d => by
    rw [show jsonFuel (Json.obj ((k, v) :: ms)) = 1 + jsonFuelMembers ((k, v) :: ms) from rfl,
      show dumpVal d (Json.obj ((k, v) :: ms)) =
        (('{' :: dumpMembers (d + 1) ((k, v) :: ms)) ++ nlIndent d) ++ ['}'] from rfl]
    have hm := jsonFuelMembers_le_dump ((k, v) :: ms) (d + 1)
    simp only [List.length_append, List.length_cons]
    omega

theorem jsonFuelItems_le_dump : ∀ (l : List Json) (d : Nat),
    jsonFuelItems l ≤ (dumpItems d l).length
  | [], _ => Nat.zero_le _
  | [x], d => by
    rw [show jsonFuelItems [x] = 1 + max (jsonFuel x) 0 from rfl,
      show dumpItems d [x] = nlIndent d ++ dumpVal d x from rfl]
    have hx := jsonFuel_le_dump x d
    have hnl : 0 < (nlIndent d).length := by simp [nlIndent]
    simp only [List.length_append]
    omega
  | x :: y :: ys, d => by
    rw [show jsonFuelItems (x :: y :: ys) =
        1 + max (jsonFuel x) (jsonFuelItems (y :: ys)) from rfl,
      show dumpItems d (x :: y :: ys) =
        (nlIndent d ++ dumpVal d x) ++ (',' :: dumpItems d (y :: ys)) from rfl]
    have hx := jsonFuel_le_dump x d
    have hi := jsonFuelItems_le_dump (y :: ys) d
    have hnl : 0 < (nlIndent d).length := by simp [nlIndent]
    simp only [List.length_append, List.length_cons]
    omega

theorem jsonFuelMembers_le_dump : ∀ (ms : List (String × Json)) (d : Nat),
    jsonFuelMembers ms ≤ (dumpMembers d ms).length
  | [], _ => Nat.zero_le _
  | [(k, v)], d => by
    rw [show jsonFuelMembers [(k, v)] = 1 + max (jsonFuel v) 0 from rfl,
      show dumpMembers d [(k, v)] =
        (nlIndent d ++ (('"' :: escapeStr k.data) ++ ['"'])) ++
          (':' :: ' ' :: dumpVal d v) from rfl]
    have hv := jsonFuel_le_dump v d
    have hnl : 0 < (nlIndent d).length := by simp [nlIndent]
    simp only [List.length_append, List.length_cons]
    omega
  | (k, v) :: kv :: kvs, d => by
    rw [show jsonFuelMembers ((k, v) :: kv :: kvs) =
        1 + max (jsonFuel v) (jsonFuelMembers (kv :: kvs)) from rfl,
      show dumpMembers d ((k, v) :: kv :: kvs) =
        ((nlIndent d ++ (('"' :: escapeStr k.data) ++ ['"'])) ++
          (':' :: ' ' :: dumpVal d v)) ++ (',' :: dumpMembers d (kv :: kvs)) from rfl]
    have hv := jsonFuel_le_dump v d
    have hm := jsonFuelMembers_le_dump (kv :: kvs) d
    have hnl : 0 < (nlIndent d).length := by simp [nlIndent]
    simp only [List.length_append, List.length_cons]
    omega

end

/-- `json.loads` of `json.dumps(v, indent=4)` returns the value unchanged. -/
theorem loads_dumps (j : Json) : loads (dumps j) = some j := by
  have hfuel : jsonFuel j ≤ (dumpVal 0 j).length + 1 :=
    le_trans (jsonFuel_le_dump j 0) (Nat.le_succ _)
  have h := parse_dumpVal j 0 ((dumpVal 0 j).length + 1) [] hfuel rfl
  rw [List.append_nil] at h
  simp only [loads]
  rw [show (dumps j).data = dumpVal 0 j from rfl, h]
  rfl


/-- Claim C4: for every structured CV mapping held in the session store (a
JSON-representable dictionary of fields, embedded as an object tree whose
keys are duplicate-free as in a Python dict), serializing it with the export
operation `json.dumps(st.session_state.parsed, indent=4)` and reloading the
string with `json.loads` yields the same mapping of fields. -/
theorem c4_json_roundtrip (fields : List (String × Json))
    (hwf : jsonWF (Json.obj fields) = true) :
    loads (dumps (Json.obj fields)) = some (Json.obj fields) :=
  loads_dumps (Json.obj fields)

theorem c4_json_roundtrip_witness :
    jsonWF (Json.obj [("name", Json.str "Ada Lovelace"),
      ("skills", Json.arr [Json.str "Python", Json.str "Lean"]),
      ("experience", Json.num 7)]) = true ∧
    loads (dumps (Json.obj [("name", Json.str "Ada Lovelace"),
      ("skills", Json.arr [Json.str "Python", Json.str "Lean"]),
      ("experience", Json.num 7)])) =
    some (Json.obj [("name", Json.str "Ada Lovelace"),
      ("skills", Json.arr [Json.str "Python", Json.str "Lean"]),
      ("experience", Json.num 7)]) :=
  ⟨rfl, c4_json_roundtrip [("name", Json.str "Ada Lovelace"),
      ("skills", Json.arr [Json.str "Python", Json.str "Lean"]),
      ("experience", Json.num 7)] rfl⟩


/-! ## `parse_and_store_resume` (`candidate_dashboard.py`, lines 103-208)

The function has a mock branch (no API key: always returns the mock result
dictionary) and a real branch wrapped in `try/except Exception`: text
extraction, an `[Error]`-prefix check that raises `ValueError`, the LLM call
(modelled as an `Except` value, an exception for a network/API failure), a
regex crop of the reply to its outermost braces, `json.loads`, and
`.items()` which raises `AttributeError` on a non-dict.  The temp-file I/O
around extraction is elided (its text result is the `input_text` argument)
and the pandas DataFrame is embedded as the list of `(Section, Content)`
rows it is built from. -/

/-- The literal `mock_parsed_data` dictionary (lines 120-129). -/
def mockFields (name : String) : List (String × Json) :=
  [("name", Json.str name),
   ("contact", Json.obj [("email", Json.str "mock@example.com"),
     ("phone", Json.str "123-456-7890")]),
   ("summary", Json.str "Mock Candidate with 5 years experience in Streamlit and AI."),
   ("experience", Json.arr [Json.obj [("title", Json.str "AI Developer"),
     ("company", Json.str "MockTech"), ("duration", Json.str "5 Years")]]),
   ("skills", Json.arr [Json.str "Python", Json.str "Streamlit", Json.str "Groq",
     Json.str "LLMs"]),
   ("education", Json.arr [Json.obj [("degree", Json.str "M.Sc. AI"),
     ("institution", Json.str "Mock University")]]),
   ("projects", Json.arr [Json.str "Project Alpha", Json.str "Project Beta"]),
   ("achievements", Json.arr [Json.str "Mock Award"])]

/-- The success dictionary (lines 136-141 and 196-201): keys `parsed`,
`full_text`, `excel_data`, `name`. -/
structure ParseOk where
  parsed : Json
  full_text : String
  excel_data : List (String × Json)
  name : String

/-- The failure dictionary (lines 204-208): keys `error`, `full_text`, `name`. -/
structure ParseErr where
  error : String
  full_text : String
  name : String

/-- What `parse_and_store_resume` hands back to its caller. -/
inductive ParseResult : Type where
  | ok (r : ParseOk) : ParseResult
  | err (r : ParseErr) : ParseResult

/-- The fixed prefix of the except-branch message (line 205). -/
def errDetails : String :=
  "AI Parsing Failed. Ensure the text is readable and the GROQ_API_KEY is correct. Details: "

/-- `str.startswith`. -/
def pyStartsWith (s p : String) : Bool := p.data.isPrefixOf s.data

/-- `str.strip()` (line 182). -/
def pyStrip (s : String) : String :=
  String.mk (((s.data.dropWhile isSpaceChar).reverse.dropWhile isSpaceChar).reverse)

/-- `re.search(r'\{.*\}', s, re.DOTALL)` (line 185): the greedy match runs
from the first `{` to the last `}` after it, or fails. -/
def extractBraces (l : List Char) : Option (List Char) :=
  let a := l.dropWhile (fun c => !(c == '{'))
  let b := (a.reverse.dropWhile (fun c => !(c == '}'))).reverse
  if b.isEmpty then none else some b

/-- Lines 182-189: strip the reply, feed the brace-cropped group to
`json.loads` if the regex matched, the raw string as a last resort. -/
def jsonSource (reply : String) : String :=
  match extractBraces (pyStrip reply).data with
  | some g => String.mk g
  | none => pyStrip reply

/-- Lines 103-208.  `hasRealKey` is whether `GROQ_API_KEY` differs from the
dummy value; `llm` is the chat-completion call, `Except.error` when the API
raises. -/
def parse_and_store_resume (hasRealKey source_is_file : Bool)
    (input_name input_text : String) (llm : Except String String) : ParseResult :=
  let name := if source_is_file then input_name else "Pasted CV Text"
  if hasRealKey = false then
    ParseResult.ok
      { parsed := Json.obj (mockFields name)
        full_text := input_text
        excel_data := mockFields name
        name := name }
  else
    if pyStartsWith input_text "[Error]" then
      ParseResult.err
        { error := errDetails ++ input_text
          full_text := input_text
          name := name }
    else
      match llm with
      | Except.error e =>
        ParseResult.err
          { error := errDetails ++ e
            full_text := input_text
            name := name }
      | Except.ok reply =>
        match loads (jsonSource reply) with
        | none =>
          ParseResult.err
            { error := errDetails ++ "Expecting value"
              full_text := input_text
              name := name }
        | some (Json.obj fields) =>
          ParseResult.ok
            { parsed := Json.obj fields
              full_text := input_text
              excel_data := fields
              name := name }
        | some _ =>
          ParseResult.err
            { error := errDetails ++ "object has no attribute items"
              full_text := input_text
              name := name }

def isErr : ParseResult → Bool
  | ParseResult.err _ => true
  | ParseResult.ok _ => false

/-- The pipeline failures of the real branch: an `[Error]` extraction result,
a failed LLM call, unparseable JSON, or JSON that is not an object. -/
def parseFailure (hasRealKey : Bool) (input_text : String)
    (llm : Except String String) : Bool :=
  hasRealKey &&
    (pyStartsWith input_text "[Error]" ||
      (match llm with
       | Except.error _ => true
       | Except.ok reply =>
         match loads (jsonSource reply) with
         | none => true
         | some (Json.obj _) => false
         | some _ => true))

/-- Claim C6: for every input, `parse_and_store_resume` never raises to its
caller: it returns the error dictionary (keys `error`, `full_text`, `name`)
exactly when a pipeline step fails, and otherwise the success dictionary
with the keys `parsed`, `full_text`, `excel_data` and `name`. -/
theorem c6_parse_and_store_total (hasRealKey source_is_file : Bool)
    (input_name input_text : String) (llm : Except String String) :
    isErr (parse_and_store_resume hasRealKey source_is_file input_name input_text llm) =
      parseFailure hasRealKey input_text llm := by
  by_cases hk : hasRealKey = false
  · simp [parse_and_store_resume, parseFailure, isErr, hk]
  · have hk2 : hasRealKey = true := by
      cases hasRealKey
      · exact absurd rfl hk
      · rfl
    by_cases hs : pyStartsWith input_text "[Error]" = true
    · simp [parse_and_store_resume, parseFailure, isErr, hk2, hs]
    · have hs2 : pyStartsWith input_text "[Error]" = false := by
        cases hx : pyStartsWith input_text "[Error]"
        · rfl
        · exact absurd hx hs
      cases llm with
      | error e => simp [parse_and_store_resume, parseFailure, isErr, hk2, hs2]
      | ok reply =>
        cases hload : loads (jsonSource reply) with
        | none => simp [parse_and_store_resume, parseFailure, isErr, hk2, hs2, hload]
        | some j =>
          cases j with
          | null => simp [parse_and_store_resume, parseFailure, isErr, hk2, hs2, hload]
          | bool b => simp [parse_and_store_resume, parseFailure, isErr, hk2, hs2, hload]
          | num n => simp [parse_and_store_resume, parseFailure, isErr, hk2, hs2, hload]
          | str s => simp [parse_and_store_resume, parseFailure, isErr, hk2, hs2, hload]
          | arr l => simp [parse_and_store_resume, parseFailure, isErr, hk2, hs2, hload]
          | obj fields => simp [parse_and_store_resume, parseFailure, isErr, hk2, hs2, hload]

end ResumePortal
